import Mathlib

/-!
Verification of the row-enrichment pipeline of the `ai-serch-google-sheets`
repository.  The Python sources under `src/` are shallowly embedded below:
pure functions become Lean functions over `String`, `List` and explicit
record types; the I/O boundary (HTTP fetches, LLM providers, the wall
clock) is passed in as explicit parameters or oracles.  Python `str`
operations (`strip`, `split`, `lower`, …) are re-implemented over
`List Char`, restricted to their ASCII behaviour.
-/

namespace Scraper

/-! ## Python string primitives -/

/-- `str.strip()` on the character list: drop whitespace from both ends. -/
def stripChars (cs : List Char) : List Char :=
  ((cs.dropWhile Char.isWhitespace).reverse.dropWhile Char.isWhitespace).reverse

/-- Python `s.strip()`. -/
def pyStrip (s : String) : String := String.mk (stripChars s.data)

/-- Python `s.rstrip()` (used by `truncate_text`). -/
def pyStripRight (s : String) : String :=
  String.mk ((s.data.reverse.dropWhile Char.isWhitespace).reverse)

/-- Python `s.lower()` (ASCII model). -/
def pyLower (s : String) : String := String.mk (s.data.map Char.toLower)

/-- Python `s.upper()` (ASCII model). -/
def pyUpper (s : String) : String := String.mk (s.data.map Char.toUpper)

/-- Python `s.capitalize()` (ASCII model). -/
def pyCapitalize (s : String) : String :=
  match s.data with
  | [] => ""
  | c :: rest => String.mk (c.toUpper :: rest.map Char.toLower)

def pyTitleAux : Bool → List Char → List Char
  | _, [] => []
  | prevAlpha, c :: rest =>
    (if c.isAlpha then (if prevAlpha then c.toLower else c.toUpper) else c) ::
      pyTitleAux c.isAlpha rest

/-- Python `s.title()` (ASCII model): uppercase each letter that follows a
non-letter, lowercase the other letters. -/
def pyTitle (s : String) : String := String.mk (pyTitleAux false s.data)

/-- `str.split(",")` on the character list: `splitCommaAux acc cs` where
`acc` holds the (reversed) characters of the current field. -/
def splitCommaAux : List Char → List Char → List (List Char)
  | acc, [] => [acc.reverse]
  | acc, c :: cs =>
    if c = ',' then acc.reverse :: splitCommaAux [] cs
    else splitCommaAux (c :: acc) cs

/-- Python `s.split(",")`; in particular `"".split(",") == [""]`. -/
def pySplitComma (s : String) : List String :=
  (splitCommaAux [] s.data).map String.mk

/-- `",".join(l)`. -/
def joinComma : List String → String
  | [] => ""
  | [s] => s
  | s :: rest => s ++ "," ++ joinComma rest

/-- `sep.join(l)` for an arbitrary separator. -/
def joinWith (sep : String) : List String → String
  | [] => ""
  | [s] => s
  | s :: rest => s ++ sep ++ joinWith sep rest

def splitlinesAux : List Char → List Char → List String
  | acc, [] => if acc.isEmpty then [] else [String.mk acc.reverse]
  | acc, c :: rest =>
    if c = '\n' then String.mk acc.reverse :: splitlinesAux [] rest
    else if c = '\r' then
      String.mk acc.reverse ::
        splitlinesAux [] (if rest.head? = some '\n' then rest.tail else rest)
    else splitlinesAux (c :: acc) rest
termination_by _ cs => cs.length
decreasing_by
  all_goals simp only [List.length_cons]
  · omega
  · split
    · simp only [List.length_tail]; omega
    · omega
  · omega

/-- Python `s.splitlines()` (for the `\n`, `\r\n` and `\r` terminators):
a trailing terminator does not produce a final empty line. -/
def pySplitlines (s : String) : List String := splitlinesAux [] s.data

/-- `"\n".join(l)`. -/
def joinNL : List String → String
  | [] => ""
  | [s] => s
  | s :: rest => s ++ "\n" ++ joinNL rest

/-- Substring test on character lists (Python `needle in hay`). -/
def containsSub : List Char → List Char → Bool
  | [], needle => needle.isEmpty
  | c :: rest, needle => needle.isPrefixOf (c :: rest) || containsSub rest needle

/-- Python `needle in hay` for strings. -/
def strContains (hay needle : String) : Bool := containsSub hay.data needle.data

/-- Python `s.startswith(pre)`. -/
def strStartsWith (s pre : String) : Bool := pre.data.isPrefixOf s.data

/-- Python slicing `s[:n]`. -/
def pyTake (n : Nat) (s : String) : String := String.mk (s.data.take n)

/-- Python `s.isdigit()` (ASCII model): nonempty and all digits. -/
def pyIsDigit (s : String) : Bool := !s.data.isEmpty && s.data.all Char.isDigit

/-- `int(s)` for an all-digit string. -/
def digitsToNat (cs : List Char) : Nat :=
  cs.foldl (fun acc c => acc * 10 + (c.toNat - 48)) 0

/-- First-occurrence deduplication, as produced by Python's
`if x not in seen: seen.add(x); out.append(x)` pattern. -/
def dedupFirstAux : List String → List String → List String
  | _, [] => []
  | seen, x :: xs =>
    if x ∈ seen then dedupFirstAux seen xs
    else x :: dedupFirstAux (x :: seen) xs

def dedupFirst (l : List String) : List String := dedupFirstAux [] l

/-- Code-point lexicographic strict order on character lists (Python `<`
on `str`). -/
def lexLt : List Char → List Char → Bool
  | [], [] => false
  | [], _ :: _ => true
  | _ :: _, [] => false
  | a :: as', b :: bs => decide (a < b) || (a == b && lexLt as' bs)

def strLt (a b : String) : Bool := lexLt a.data b.data

/-- Python string `<=`, as used by `sorted`/`.sort()`. -/
def strLe (a b : String) : Prop := strLt a b = true ∨ a = b

instance : DecidableRel strLe := fun a b => by unfold strLe; infer_instance

/-- `utils/text.py` `truncate_text`: strip, and truncate with an ellipsis
when longer than `limit`. -/
def truncateText (payload : String) (limit : Nat) : String :=
  let p := pyStrip payload
  if p.length ≤ limit then p
  else pyStripRight (pyTake (limit - 3) p) ++ "..."

/-! ## Python values and sheet rows -/

/-- The Python values that occur in sheet rows and markers. -/
inductive PyVal where
  | vnone
  | vbool (b : Bool)
  | vint (n : Int)
  | vstr (s : String)
  | vlist (items : List PyVal)
  | vdict (entries : List (String × PyVal))
deriving Repr

mutual
def PyVal.beq : PyVal → PyVal → Bool
  | .vnone, .vnone => true
  | .vbool a, .vbool b => a == b
  | .vint a, .vint b => a == b
  | .vstr a, .vstr b => a == b
  | .vlist a, .vlist b => PyVal.beqList a b
  | .vdict a, .vdict b => PyVal.beqDict a b
  | _, _ => false
def PyVal.beqList : List PyVal → List PyVal → Bool
  | [], [] => true
  | a :: as', b :: bs => PyVal.beq a b && PyVal.beqList as' bs
  | _, _ => false
def PyVal.beqDict : List (String × PyVal) → List (String × PyVal) → Bool
  | [], [] => true
  | (k, a) :: as', (k', b) :: bs => k == k' && PyVal.beq a b && PyVal.beqDict as' bs
  | _, _ => false
end

/-- Python truthiness of a value. -/
def PyVal.truthy : PyVal → Bool
  | .vnone => false
  | .vbool b => b
  | .vint n => n != 0
  | .vstr s => s ≠ ""
  | .vlist items => !items.isEmpty
  | .vdict entries => !entries.isEmpty

mutual
/-- Python `repr` of a parsed value (ASCII model, used by `str` on
containers). -/
def pyRepr : PyVal → String
  | .vnone => "None"
  | .vbool b => if b then "True" else "False"
  | .vint n => toString n
  | .vstr s => "'" ++ s ++ "'"
  | .vlist items => "[" ++ pyReprList items ++ "]"
  | .vdict entries => "\x7b" ++ pyReprDict entries ++ "\x7d"
def pyReprList : List PyVal → String
  | [] => ""
  | [v] => pyRepr v
  | v :: rest => pyRepr v ++ ", " ++ pyReprList rest
def pyReprDict : List (String × PyVal) → String
  | [] => ""
  | [(k, v)] => "'" ++ k ++ "': " ++ pyRepr v
  | (k, v) :: rest => "'" ++ k ++ "': " ++ pyRepr v ++ ", " ++ pyReprDict rest
end

/-- Python `str(v)`. -/
def pyStr : PyVal → String
  | .vstr s => s
  | v => pyRepr v

/-- A sheet row: a Python dict from column name to value (unique keys). -/
abbrev Row := List (String × PyVal)

def rowGet (r : Row) (k : String) : Option PyVal :=
  (r.find? (fun e => e.1 == k)).map (·.2)

def rowHas (r : Row) (k : String) : Bool := r.any (fun e => e.1 == k)

/-- `r[k] = v`: replace in place when the key exists, append otherwise. -/
def rowSet (r : Row) (k : String) (v : PyVal) : Row :=
  if rowHas r k then r.map (fun e => if e.1 == k then (k, v) else e)
  else r ++ [(k, v)]

/-- `r.pop(k, None)`. -/
def rowPop (r : Row) (k : String) : Row := r.filter (fun e => e.1 != k)

/-- `r.setdefault(k, v)`. -/
def rowSetDefault (r : Row) (k : String) (v : PyVal) : Row :=
  if rowHas r k then r else r ++ [(k, v)]

/-! ## `cli.py` `_merge_rows` -/

/-- `int(original.get("__row", 0))` — the addressing key used by the merge.
(A non-numeric `"__row"` value would raise in the source; such rows are
modelled as key 0.) -/
def mergeRowKey (r : Row) : Int :=
  match rowGet r "__row" with
  | none => 0
  | some (.vint n) => n
  | some (.vstr s) => s.toInt?.getD 0
  | some (.vbool b) => if b then 1 else 0
  | some _ => 0

/-- `dict.get` on an update map keyed by row number. -/
def dGet (m : List (Int × Row)) (k : Int) : Option Row :=
  (m.find? (fun e => e.1 == k)).map (·.2)

/-- `m[k] = v` on the update map. -/
def dSet (m : List (Int × Row)) (k : Int) (v : Row) : List (Int × Row) :=
  if m.any (fun e => e.1 == k) then m.map (fun e => if e.1 == k then (k, v) else e)
  else m ++ [(k, v)]

/-- `cli.py` `_merge_rows`: substitute the update keyed by each original
row's `"__row"` value, else pass the original row through. -/
def mergeRows (allRows : List Row) (updates : List (Int × Row)) : List Row :=
  allRows.map (fun original => (dGet updates (mergeRowKey original)).getD original)

/-! ## `pipeline/enricher.py` `_mark_stage` -/

/-- The tokens collected from an existing marker: list (tuple/set) markers
are taken elementwise, any other truthy value is stringified and split on
commas; each token is stripped and empty tokens are dropped. -/
def markerTokens (marker : Option PyVal) : List String :=
  match marker with
  | none => []
  | some v =>
    if v.truthy then
      match v with
      | .vlist items => (items.map (fun it => pyStrip (pyStr it))).filter (· ≠ "")
      | w => ((pySplitComma (pyStr w)).map pyStrip).filter (· ≠ "")
    else []

/-- `_mark_stage`'s `_sort_key`: `(int(v), v)` for all-digit ids, `(99, v)`
otherwise. -/
def stageSortKey (v : String) : Nat × String :=
  if pyIsDigit v then (digitsToNat v.data, v) else (99, v)

/-- The sort order induced by `_sort_key` (lexicographic on the key pair).
The key is injective (its second component is the id itself), so
`sorted(set, key=_sort_key)` is deterministic and independent of the set's
iteration order. -/
def stageLe (a b : String) : Prop :=
  (stageSortKey a).1 < (stageSortKey b).1 ∨
    ((stageSortKey a).1 = (stageSortKey b).1 ∧ strLe (stageSortKey a).2 (stageSortKey b).2)

instance : DecidableRel stageLe := fun a b => by unfold stageLe; infer_instance

/-- `_mark_stage(marker, stage)`: collect the marker's tokens and the new
stage id into a set (`dedupFirst` enumerates it), sort by `_sort_key` and
comma-join. -/
def markStage (marker : Option PyVal) (stage : String) : String :=
  let stages := dedupFirst (markerTokens marker ++ [stage])
  joinComma (List.insertionSort stageLe stages)

/-! ## Source snapshots (`sources/`) and text utilities (`utils/text.py`) -/

structure PageSnapshot where
  url : String
  title : String
  text : String
deriving Repr, DecidableEq

structure SiteData where
  pages : List PageSnapshot
deriving Repr, DecidableEq

/-- `SiteData.combined_text`. -/
def SiteData.combinedText (d : SiteData) (maxChars : Nat := 8000) : String :=
  pyTake maxChars (joinWith "\n\n" ((d.pages.map (·.text)).filter (· ≠ "")))

structure ExternalArticle where
  title : String
  url : String
  source : String
  published_at : Option String := none
  summary : Option String := none
deriving Repr, DecidableEq

structure LinkedInPost where
  title : String
  text : String
  url : String
  author : Option String := none
  published_at : Option String := none
deriving Repr, DecidableEq

structure SerpResult where
  overview : String
  articles : List ExternalArticle
deriving Repr, DecidableEq

/-- The line filter of `collect_candidate_products`: nonempty, at most 7
spaces, mentions a product-indicating keyword, and fully matches
`^[\w\-\s]{3,60}$` (ASCII model of `\w`/`\s`). -/
def candidateLineOk (line : String) : Bool :=
  !line.isEmpty && decide (line.data.count ' ' ≤ 7) &&
    (["product", "platform", "solution", "suite"].any
      (fun tok => strContains (pyLower line) tok)) &&
    (decide (3 ≤ line.length) && decide (line.length ≤ 60) &&
      line.data.all (fun c => c.isAlphanum || c = '_' || c = '-' || c.isWhitespace))

/-- `utils/text.py` `collect_candidate_products`. -/
def collectCandidateProducts (texts : List String) : List String :=
  dedupFirst ((texts.flatMap (fun t => (pySplitlines t).map pyStrip)).filter candidateLineOk)

def softwareKeywordList : List String :=
  ["software", "platform", "app", "application", "tool", "suite", "system",
   "saas", "cloud", "portal", "engine", "dashboard", "studio", "analytics"]

/-- The keep test of `filter_software_candidates`. -/
def softwareKeep (candidate : String) : Bool :=
  let lower := pyLower candidate
  (softwareKeywordList.any (fun kw => strContains lower kw)) ||
    (strContains lower "service" &&
      (strContains lower " as a service" || strContains lower "-as-a-service" ||
        strContains lower "service platform"))

/-- `utils/text.py` `filter_software_candidates`. -/
def filterSoftwareCandidates (candidates : List String) : List String :=
  dedupFirst (candidates.filter softwareKeep)

/-- `utils/text.py` `detect_keywords`. -/
def detectKeywords (texts : List String) (keywords : List String) : Bool :=
  texts.any (fun t => (keywords.map pyLower).any (fun kw => strContains (pyLower t) kw))

/-! ## JSON values (the shape produced by `json.loads`) -/

inductive Json where
  | jnull
  | jbool (b : Bool)
  | jnum (lit : String)
  | jstr (s : String)
  | jarr (items : List Json)
  | jobj (entries : List (String × Json))

/-- `nlp/llm.py` `LLMEnrichment` (field defaults as in the dataclass). -/
structure LLMEnrichment where
  summary : String
  insights : String
  has_software : Bool := false
  software_products : List String := []
  business_model : String := "other"
  market_focus : String := "OTHER"
  category : String := "NO"
  iso_services : List String := []
  merchant_segments : List String := []
  partnerships : List String := []
  industry : String := "Unknown"
  has_exclusion : Bool := false
  exclusion_reason : String := ""
  tech_signals : List String := []
  raw_response : Option (List (String × Json)) := none

/-- `pipeline/enricher.py` `_merge_software_signals`: union the cascade's
declared products with the keyword-filtered candidates of the three text
sources, drop falsy entries, sort ascending. -/
def mergeSoftwareSignals (site : SiteData) (_serp : SerpResult)
    (news : List ExternalArticle) (posts : List LinkedInPost)
    (llm : LLMEnrichment) : Bool × List String :=
  let heuristics :=
    filterSoftwareCandidates (collectCandidateProducts (site.pages.map (·.text)))
  let newsCandidates :=
    filterSoftwareCandidates
      (collectCandidateProducts (news.map (fun a => a.summary.getD "")))
  let postCandidates :=
    filterSoftwareCandidates (collectCandidateProducts (posts.map (·.text)))
  let candidates :=
    dedupFirst (llm.software_products ++ heuristics ++ newsCandidates ++ postCandidates)
  let softwareList := List.insertionSort strLe (candidates.filter (· ≠ ""))
  (llm.has_software || !softwareList.isEmpty, softwareList)

/-! ## A strict JSON parser (model of `json.loads`) -/

def jsonWs (c : Char) : Bool := c = ' ' || c = '\t' || c = '\n' || c = '\r'

def skipWs (cs : List Char) : List Char := cs.dropWhile jsonWs

def hexDigitVal (c : Char) : Option Nat :=
  if '0' ≤ c ∧ c ≤ '9' then some (c.toNat - 48)
  else if 'a' ≤ c ∧ c ≤ 'f' then some (c.toNat - 87)
  else if 'A' ≤ c ∧ c ≤ 'F' then some (c.toNat - 55)
  else none

def escChar (c : Char) : Option Char :=
  if c = '"' then some '"'
  else if c = '\\' then some '\\'
  else if c = '/' then some '/'
  else if c = 'b' then some (Char.ofNat 8)
  else if c = 'f' then some (Char.ofNat 12)
  else if c = 'n' then some '\n'
  else if c = 'r' then some '\r'
  else if c = 't' then some '\t'
  else none

/-- Parse a JSON string body (after the opening quote); returns the decoded
characters and the remainder after the closing quote. -/
def parseJStrAux : List Char → Option (List Char × List Char)
  | [] => none
  | '"' :: rest => some ([], rest)
  | '\\' :: rest =>
    match rest with
    | [] => none
    | 'u' :: a :: b :: c :: d :: rest2 => do
      let ha ← hexDigitVal a
      let hb ← hexDigitVal b
      let hc ← hexDigitVal c
      let hd ← hexDigitVal d
      let (acc, rem) ← parseJStrAux rest2
      pure (Char.ofNat (((ha * 16 + hb) * 16 + hc) * 16 + hd) :: acc, rem)
    | e :: rest2 => do
      let c ← escChar e
      let (acc, rem) ← parseJStrAux rest2
      pure (c :: acc, rem)
  | c :: rest =>
    if c.toNat < 32 then none
    else do
      let (acc, rem) ← parseJStrAux rest
      pure (c :: acc, rem)

/-- Parse a JSON number; returns its literal characters and the remainder. -/
def parseJNum (cs : List Char) : Option (List Char × List Char) :=
  let (sign, cs1) := match cs with | '-' :: r => ([('-' : Char)], r) | _ => ([], cs)
  let ds := cs1.takeWhile Char.isDigit
  let rest := cs1.dropWhile Char.isDigit
  if ds.isEmpty then none
  else if ds.length > 1 && ds.head? == some '0' then none
  else
    let fracPart : Option (List Char × List Char) :=
      match rest with
      | '.' :: r =>
        let fs := r.takeWhile Char.isDigit
        if fs.isEmpty then none else some ('.' :: fs, r.dropWhile Char.isDigit)
      | _ => some ([], rest)
    match fracPart with
    | none => none
    | some (fchars, rest2) =>
      let expPart : Option (List Char × List Char) :=
        match rest2 with
        | e :: r =>
          if e = 'e' || e = 'E' then
            let (schars, r2) :=
              match r with
              | '+' :: rr => ([('+' : Char)], rr)
              | '-' :: rr => ([('-' : Char)], rr)
              | _ => ([], r)
            let es := r2.takeWhile Char.isDigit
            if es.isEmpty then none
            else some (e :: (schars ++ es), r2.dropWhile Char.isDigit)
          else some ([], rest2)
        | [] => some ([], rest2)
      match expPart with
      | none => none
      | some (echars, rest3) => some (sign ++ ds ++ fchars ++ echars, rest3)

mutual
def parseJVal : Nat → List Char → Option (Json × List Char)
  | 0, _ => none
  | fuel + 1, cs =>
    match skipWs cs with
    | [] => none
    | c :: rest =>
      if c = '"' then
        (parseJStrAux rest).map (fun p => (Json.jstr (String.mk p.1), p.2))
      else if c = '{' then
        match skipWs rest with
        | '}' :: rest2 => some (Json.jobj [], rest2)
        | cs2 => (parseJObjItems fuel cs2).map (fun p => (Json.jobj p.1, p.2))
      else if c = '[' then
        match skipWs rest with
        | ']' :: rest2 => some (Json.jarr [], rest2)
        | cs2 => (parseJArrItems fuel cs2).map (fun p => (Json.jarr p.1, p.2))
      else if "true".data.isPrefixOf (c :: rest) then
        some (Json.jbool true, (c :: rest).drop 4)
      else if "false".data.isPrefixOf (c :: rest) then
        some (Json.jbool false, (c :: rest).drop 5)
      else if "null".data.isPrefixOf (c :: rest) then
        some (Json.jnull, (c :: rest).drop 4)
      else if "NaN".data.isPrefixOf (c :: rest) then
        some (Json.jnum "NaN", (c :: rest).drop 3)
      else if "Infinity".data.isPrefixOf (c :: rest) then
        some (Json.jnum "Infinity", (c :: rest).drop 8)
      else if "-Infinity".data.isPrefixOf (c :: rest) then
        some (Json.jnum "-Infinity", (c :: rest).drop 9)
      else
        (parseJNum (c :: rest)).map (fun p => (Json.jnum (String.mk p.1), p.2))

def parseJArrItems : Nat → List Char → Option (List Json × List Char)
  | 0, _ => none
  | fuel + 1, cs => do
    let (v, rest) ← parseJVal fuel cs
    match skipWs rest with
    | ',' :: rest2 => do
      let (vs, rem) ← parseJArrItems fuel rest2
      pure (v :: vs, rem)
    | ']' :: rest2 => pure ([v], rest2)
    | _ => none

def parseJObjItems : Nat → List Char → Option (List (String × Json) × List Char)
  | 0, _ => none
  | fuel + 1, cs =>
    match skipWs cs with
    | '"' :: rest => do
      let (kchars, rest2) ← parseJStrAux rest
      match skipWs rest2 with
      | ':' :: rest3 => do
        let (v, rest4) ← parseJVal fuel rest3
        match skipWs rest4 with
        | ',' :: rest5 => do
          let (es, rem) ← parseJObjItems fuel rest5
          pure ((String.mk kchars, v) :: es, rem)
        | '}' :: rest5 => pure ([(String.mk kchars, v)], rest5)
        | _ => none
      | _ => none
    | _ => none
end

/-- `json.loads`: parse one document, allowing surrounding whitespace. -/
def jsonParse (s : String) : Option Json :=
  match parseJVal (2 * s.length + 8) s.data with
  | some (v, rest) => if (skipWs rest).isEmpty then some v else none
  | none => none

/-- Whether a JSON numeral denotes zero (used for Python truthiness). -/
def jsonNumIsZero (lit : String) : Bool :=
  let ds := (lit.data.takeWhile (fun c => c ≠ 'e' ∧ c ≠ 'E')).filter Char.isDigit
  !ds.isEmpty && ds.all (· == '0')

/-- Python truthiness of a parsed JSON value. -/
def Json.truthy : Json → Bool
  | .jnull => false
  | .jbool b => b
  | .jstr s => s ≠ ""
  | .jnum lit => !(jsonNumIsZero lit)
  | .jarr items => !items.isEmpty
  | .jobj entries => !entries.isEmpty

def jTruthy : Option Json → Bool
  | none => false
  | some v => v.truthy

/-- `data.get(k)` on a parsed JSON object (duplicate keys: last wins, as in
a Python dict literal). -/
def jGet (entries : List (String × Json)) (k : String) : Option Json :=
  (entries.reverse.find? (fun e => e.1 == k)).map (·.2)

/-- Python `v or dflt` lifted to an optional JSON value. -/
def jOr (v : Option Json) (dflt : Json) : Json :=
  match v with
  | some x => if x.truthy then x else dflt
  | none => dflt

mutual
def jsonPyRepr : Json → String
  | .jnull => "None"
  | .jbool b => if b then "True" else "False"
  | .jnum lit => lit
  | .jstr s => "'" ++ s ++ "'"
  | .jarr items => "[" ++ jsonPyReprList items ++ "]"
  | .jobj entries => "\x7b" ++ jsonPyReprObj entries ++ "\x7d"
def jsonPyReprList : List Json → String
  | [] => ""
  | [v] => jsonPyRepr v
  | v :: rest => jsonPyRepr v ++ ", " ++ jsonPyReprList rest
def jsonPyReprObj : List (String × Json) → String
  | [] => ""
  | [(k, v)] => "'" ++ k ++ "': " ++ jsonPyRepr v
  | (k, v) :: rest => "'" ++ k ++ "': " ++ jsonPyRepr v ++ ", " ++ jsonPyReprObj rest
end

/-- Python `str(v)` of a parsed JSON value (ASCII model). -/
def jsonPyStr : Json → String
  | .jstr s => s
  | v => jsonPyRepr v

/-! ## `nlp/llm.py` dossier parsing -/

instance {ε α : Type} [DecidableEq ε] [DecidableEq α] : DecidableEq (Except ε α) := fun x y =>
  match x, y with
  | .ok a, .ok b => if h : a = b then .isTrue (by rw [h]) else .isFalse (by simp [h])
  | .error a, .error b => if h : a = b then .isTrue (by rw [h]) else .isFalse (by simp [h])
  | .ok _, .error _ => .isFalse (by simp)
  | .error _, .ok _ => .isFalse (by simp)

structure DossierPayload where
  summary : String
  wins : List String
  setbacks : List String
  workforce_changes : List String
  regulatory : List String
  notable_quotes : List String
  sources : List String
deriving Repr, DecidableEq

/-- The `while parts and parts[-1].startswith("```")` loop. -/
def dropTrailingFences (parts : List String) : List String :=
  (parts.reverse.dropWhile (fun p => strStartsWith p "```")).reverse

/-- The code-fence stripping prologue of `_parse_dossier_json`
(`llm.py` lines 294-302). -/
def stripCodeFence (content : String) : String :=
  let stripped := pyStrip content
  if strStartsWith stripped "```" then
    let parts := pySplitlines stripped
    let parts :=
      match parts with
      | p :: rest => if strStartsWith p "```" then rest else p :: rest
      | [] => []
    let parts := dropTrailingFences parts
    let stripped2 := pyStrip (joinNL parts)
    if stripped2 ≠ "" then stripped2 else content
  else content

/-- `_parse_dossier_json`'s `_as_list`. -/
def dossierAsList (entries : List (String × Json)) (key : String) : List String :=
  match jOr (jGet entries key) (.jarr []) with
  | .jarr items => (items.map (fun it => pyStrip (jsonPyStr it))).filter (· ≠ "")
  | .jstr s => if pyStrip s ≠ "" then [pyStrip s] else []
  | _ => []

def dossierFromData (entries : List (String × Json)) : DossierPayload where
  summary := pyStrip (jsonPyStr (jOr (jGet entries "summary") (.jstr "No dossier insights found.")))
  wins := dossierAsList entries "wins"
  setbacks := dossierAsList entries "setbacks"
  workforce_changes := dossierAsList entries "workforce_changes"
  regulatory := dossierAsList entries "regulatory"
  notable_quotes := dossierAsList entries "notable_quotes"
  sources := dossierAsList entries "sources"

/-- `_parse_dossier_json`: strip a code fence, JSON-decode (a decode error
degrades to the empty payload), and normalize.  `data.get` on a non-object
document raises (`AttributeError`), modelled as `.error`. -/
def parseDossierJson (content : String) : Except String DossierPayload :=
  let content := stripCodeFence content
  match jsonParse content with
  | some (.jobj entries) => .ok (dossierFromData entries)
  | some _ => .error "AttributeError"
  | none => .ok (dossierFromData [])

/-! ## `nlp/llm.py` `_parse_llm_json` and `_normalize_iso_category` -/

/-- The `x = data.get(...) or []; if not isinstance(x, list): x = [str(x)]`
pattern. -/
def listify : Json → List Json
  | .jarr items => items
  | w => [.jstr (jsonPyStr w)]

/-- Elements consumed as strings (`candidate.lower()`, `" ".join(...)`):
a non-string element raises in the source. -/
def asStrList : List Json → Except String (List String)
  | [] => .ok []
  | .jstr s :: rest => (asStrList rest).map (s :: ·)
  | _ :: _ => .error "AttributeError"

/-- Python `for item in v`: lists elementwise, strings per character,
dicts over their keys; other values raise `TypeError`. -/
def jIter : Json → Except String (List Json)
  | .jarr items => .ok items
  | .jstr s => .ok (s.data.map (fun c => .jstr (String.mk [c])))
  | .jobj entries => .ok (entries.map (fun e => .jstr e.1))
  | _ => .error "TypeError"

/-- The keyword → canonical-category table of `_normalize_iso_category`,
in source order. -/
def isoCategoryMapping : List (String × String) :=
  [("processor", "Payment Processor"),
   ("payment processor", "Payment Processor"),
   ("card processor", "Payment Processor"),
   ("merchant processor", "Payment Processor"),
   ("processing network", "Payment Processor"),
   ("issuing processor", "Payment Processor"),
   ("payment gateway", "Payment Gateway"),
   ("gateway", "Payment Gateway"),
   ("gateway provider", "Payment Gateway"),
   ("checkout", "Payment Gateway"),
   ("payment service provider", "Payment Service Provider"),
   ("psp", "Payment Service Provider"),
   ("merchant service provider", "Payment Service Provider"),
   ("payment solution provider", "Payment Service Provider"),
   ("iso", "ISO/MSP"),
   ("msp", "ISO/MSP"),
   ("iso/msp", "ISO/MSP"),
   ("independent sales organization", "ISO/MSP"),
   ("independent sales organisations", "ISO/MSP"),
   ("acquirer", "Acquirer"),
   ("merchant acquirer", "Acquirer"),
   ("acquiring", "Acquirer"),
   ("hybrid", "Hybrid"),
   ("aggregator", "Payment Gateway")]

def normalizeIsoCategoryStr (raw : String) : String :=
  let value := pyLower (pyStrip raw)
  if value ∈ ["", "none", "no", "n/a", "na", "null"] then "NO"
  else
    match isoCategoryMapping.find? (fun e => e.1 == value) with
    | some e => e.2
    | none =>
      match isoCategoryMapping.find? (fun e => strContains value e.1) with
      | some e => e.2
      | none =>
        if value ∈ ["payment gateway", "payment processor",
            "payment service provider", "iso/msp", "acquirer", "hybrid"] then
          pyUpper value
        else "NO"

/-- `_normalize_iso_category`: non-strings normalize to `"NO"`. -/
def normalizeIsoCategory : Json → String
  | .jstr s => normalizeIsoCategoryStr s
  | _ => "NO"

def allowedModels : List String :=
  ["product", "service", "platform", "marketplace", "hybrid", "other"]

def allowedMarkets : List String := ["B2B", "B2C", "B2B2C", "B2G", "MIXED", "OTHER"]

/-- The `iso_msp` branch of `_parse_llm_json` (no enum validation of
`business_model`/`market_focus`). -/
def parseLLMIso (data : List (String × Json)) (summary insights : String) :
    Except String LLMEnrichment := do
  let rawCategory := jOr (jGet data "category") (jOr (jGet data "iso_category") (.jstr "NO"))
  let services := listify (jOr (jGet data "services") (.jarr []))
  let category0 := normalizeIsoCategory rawCategory
  let category ←
    if category0 = "NO" ∧ ¬services.isEmpty then do
      let strs ← asStrList services
      pure (normalizeIsoCategory (.jstr (joinWith " " strs)))
    else pure category0
  let merchantSegments :=
    listify (jOr (jGet data "merchant_segments") (jOr (jGet data "target_merchants") (.jarr [])))
  let softwareRaw := listify (jOr (jGet data "software_products") (.jarr []))
  let softwareStrs ← asStrList softwareRaw
  let softwareProducts := filterSoftwareCandidates softwareStrs
  let hasSoftware := jTruthy (jGet data "has_software") ||
    jTruthy (jGet data "offers_software") || !softwareProducts.isEmpty
  let businessModel := jOr (jGet data "business_model") (.jstr "service")
  let marketFocus := jOr (jGet data "market_focus") (.jstr "B2B")
  let partnershipsItems ←
    match jGet data "partnerships" with
    | none => Except.ok ([] : List Json)
    | some v => jIter v
  return { summary, insights
           has_software := hasSoftware
           software_products := softwareProducts.take 8
           business_model := pyLower (jsonPyStr businessModel)
           market_focus := pyUpper (jsonPyStr marketFocus)
           category
           iso_services := (services.map jsonPyStr).take 8
           merchant_segments := (merchantSegments.map jsonPyStr).take 8
           partnerships := (partnershipsItems.map jsonPyStr).take 8
           raw_response := some data }

/-- The `enterprise` branch of `_parse_llm_json` (enum-validated
`business_model`/`market_focus`). -/
def parseLLMEnterprise (data : List (String × Json)) (summary insights : String) :
    Except String LLMEnrichment := do
  let industry := jOr (jGet data "industry") (.jstr "Unknown")
  let hasExclusion := jTruthy (jGet data "has_exclusion")
  let exclusionReason := jOr (jGet data "exclusion_reason") (.jstr "")
  let techSignals := listify (jOr (jGet data "tech_signals") (.jarr []))
  let softwareRaw := listify (jOr (jGet data "software_products") (.jarr []))
  let softwareStrs ← asStrList softwareRaw
  let softwareProducts := filterSoftwareCandidates softwareStrs
  let hasSoftware := jTruthy (jGet data "has_software") || !softwareProducts.isEmpty
  let bmNormalized := pyLower (jsonPyStr (jOr (jGet data "business_model") (.jstr "other")))
  let businessModel := if allowedModels.contains bmNormalized then bmNormalized else "other"
  let mfNormalized := pyUpper (jsonPyStr (jOr (jGet data "market_focus") (.jstr "Other")))
  let marketFocus := if allowedMarkets.contains mfNormalized then mfNormalized else "OTHER"
  return { summary, insights
           has_software := hasSoftware
           software_products := softwareProducts.take 8
           business_model := businessModel
           market_focus := marketFocus
           industry := jsonPyStr industry
           has_exclusion := hasExclusion
           exclusion_reason := jsonPyStr exclusionReason
           tech_signals := (techSignals.map jsonPyStr).take 10
           raw_response := some data }

/-- The default (software-profile) branch of `_parse_llm_json`
(enum-validated `business_model`/`market_focus`). -/
def parseLLMDefault (data : List (String × Json)) (summary insights : String) :
    Except String LLMEnrichment := do
  let softwareRaw :=
    listify (jOr (jGet data "software_products") (jOr (jGet data "product_names") (.jarr [])))
  let softwareStrs ← asStrList softwareRaw
  let softwareProducts := filterSoftwareCandidates softwareStrs
  let hasSoftware := jTruthy (jGet data "has_software") ||
    jTruthy (jGet data "has_products") || !softwareProducts.isEmpty
  let bmNormalized := pyLower (jsonPyStr (jOr (jGet data "business_model") (.jstr "other")))
  let businessModel := if allowedModels.contains bmNormalized then bmNormalized else "other"
  let mfNormalized := pyUpper (jsonPyStr (jOr (jGet data "market_focus") (.jstr "Other")))
  let marketFocus := if allowedMarkets.contains mfNormalized then mfNormalized else "OTHER"
  return { summary, insights
           has_software := hasSoftware
           software_products := softwareProducts.take 8
           business_model := businessModel
           market_focus := marketFocus
           raw_response := some data }

/-- The body of `_parse_llm_json` once `data` is available. -/
def parseLLMFromData (profile : String) (data : List (String × Json)) :
    Except String LLMEnrichment :=
  let summary := jsonPyStr (jOr (jGet data "summary") (.jstr "Summary unavailable."))
  let insights := jsonPyStr (jOr (jGet data "insights") (.jstr "No insights returned."))
  if profile = "iso_msp" then parseLLMIso data summary insights
  else if profile = "enterprise" then parseLLMEnterprise data summary insights
  else parseLLMDefault data summary insights

/-- `_parse_llm_json`: strict JSON decode (no code-fence stripping).  A
decode failure raises `ValueError` under `raise_on_error=True` and degrades
to `data = {}` otherwise; `data.get` on a non-object document raises. -/
def parseLLMJson (profile : String) (content : String) (raiseOnError : Bool) :
    Except String LLMEnrichment :=
  match jsonParse content with
  | none =>
    if raiseOnError then .error "ValueError: LLM response is not valid JSON"
    else parseLLMFromData profile []
  | some (.jobj entries) => parseLLMFromData profile entries
  | some _ => .error "AttributeError"

/-! ## `nlp/llm.py` heuristic fallback and the provider cascade -/

/-- The context dict built by `_build_context_payload` (typed view of the
`as_dict` entries it carries). -/
structure ContextPayload where
  site_text : String
  serp_overview : String
  serp_articles : List ExternalArticle
  news : List ExternalArticle
  linkedin_posts : List LinkedInPost
deriving Repr, DecidableEq

def buildContextPayload (site : SiteData) (serp : SerpResult)
    (news : List ExternalArticle) (posts : List LinkedInPost) : ContextPayload where
  site_text := site.combinedText 8000
  serp_overview := serp.overview
  serp_articles := serp.articles
  news := news
  linkedin_posts := posts

/-- The software-profile part of `_heuristic_fallback`. -/
def heuristicSoftwareFallback (context : ContextPayload) : LLMEnrichment :=
  let newsText := joinWith " " (context.news.map (·.title))
  let postsText := joinWith " " (context.linkedin_posts.map (·.text))
  let texts := [context.site_text, context.serp_overview, newsText, postsText]
  let combined := pyStrip (joinWith " " (texts.filter (· ≠ "")))
  let summary := truncateText (if combined ≠ "" then combined else "No data gathered.") 500
  let insightsPresent := detectKeywords [newsText] ["launch", "partnership", "funding", "growth"]
  let insights :=
    if insightsPresent then "Key headlines indicate momentum."
    else "Limited public signals detected."
  let products := collectCandidateProducts [context.site_text, postsText]
  let softwareProducts := filterSoftwareCandidates products
  { summary, insights
    has_software := !softwareProducts.isEmpty
    software_products := softwareProducts.take 5
    business_model := "other"
    market_focus := "OTHER" }

def isoServiceKeywordTable : List (String × String) :=
  [("payment processing", "Payment processing"),
   ("gateway", "Payment gateway"),
   ("pos", "POS systems"),
   ("terminal", "Hardware/terminals"),
   ("fraud", "Fraud/Risk management"),
   ("merchant account", "Merchant account setup"),
   ("settlement", "Settlement & funding"),
   ("acquiring", "Acquiring services"),
   ("chargeback", "Chargeback management")]

/-- `_heuristic_iso_payload`. -/
def heuristicIsoPayload (context : ContextPayload) : LLMEnrichment :=
  let text := pyLower context.site_text
  let summary := truncateText context.site_text 400
  let category :=
    if ["payment processor", "card processor", "merchant processor",
        "processing network"].any (fun kw => strContains text kw) then "Payment Processor"
    else if ["payment gateway", "gateway provider"].any (fun kw => strContains text kw) then
      "Payment Gateway"
    else if strContains text "service provider" || strContains text "psp" then
      "Payment Service Provider"
    else if strContains text "independent sales" || strContains text "iso" then "ISO/MSP"
    else if strContains text "acquirer" || strContains text "acquiring" ||
        strContains text "merchant acquirer" then "Acquirer"
    else "NO"
  let services := (isoServiceKeywordTable.foldl (fun acc e =>
    if strContains text e.1 ∧ e.2 ∉ acc then acc ++ [e.2] else acc) [])
  let merchantSegments := (["retail", "restaurant", "ecommerce", "healthcare",
    "hospitality", "nonprofit", "education"].foldl (fun acc kw =>
      if strContains text kw then acc ++ [pyCapitalize kw] else acc) [])
  let partnerships := (["visa", "mastercard", "american express", "discover", "stripe",
    "adyen", "fis", "fiserv", "global payments"].foldl (fun acc kw =>
      if strContains text kw ∧ pyTitle kw ∉ acc then acc ++ [pyTitle kw] else acc) [])
  let hasSoftware := ["portal", "platform", "software", "saas", "dashboard"].any
    (fun term => strContains text term)
  { summary := if summary ≠ "" then summary else "Summary unavailable."
    insights := "Limited structured data detected."
    has_software := hasSoftware
    software_products := []
    business_model := "service"
    market_focus := "B2B"
    category
    iso_services := services
    merchant_segments := merchantSegments
    partnerships }

/-- `_heuristic_fallback`. -/
def heuristicFallback (profile : String) (context : ContextPayload) : LLMEnrichment :=
  if profile = "iso_msp" then heuristicIsoPayload context
  else heuristicSoftwareFallback context

/-- The I/O boundary of `build_summary_and_insights`: whether each provider
is configured, and the transport outcome of calling it (the response
content on success). -/
structure CascadeEnv where
  openaiKey : Bool
  perplexityKey : Bool
  openaiResp : Except String String
  perplexityResp : Except String String

/-- One provider leg: any exception (transport failure, or a strict parse
failure of the returned content) is caught by the `except` around the call
and yields `none`. -/
def tryProvider (profile : String) (resp : Except String String) : Option LLMEnrichment :=
  match resp with
  | .error _ => none
  | .ok content =>
    match parseLLMJson profile content true with
    | .ok r => some r
    | .error _ => none

/-- `build_summary_and_insights`: OpenAI, then Perplexity, then the offline
heuristic. -/
def buildSummaryAndInsights (profile : String) (env : CascadeEnv)
    (context : ContextPayload) : LLMEnrichment :=
  match (if env.openaiKey then tryProvider profile env.openaiResp else none) with
  | some r => r
  | none =>
    match (if env.perplexityKey then tryProvider profile env.perplexityResp else none) with
    | some r => r
    | none => heuristicFallback profile context

/-! ## `nlp/llm.py` `build_company_dossier` retry loop -/

/-- Observable trace of one `build_company_dossier` run: the final result
(`.error` carries `last_error` on exhaustion), the number of provider
calls, and the sleeps performed, in seconds. -/
structure DossierTrace (E D : Type) where
  result : Except (Option E) D
  calls : Nat
  sleeps : List ℚ
deriving Repr

/-- The `for attempt in range(3)` loop: `oracle a` is the outcome of the
whole provider attempt `a` (invoke + content extraction + dossier parse);
on failure sleep `1.5 * (attempt + 1)` seconds and continue. -/
def dossierGo (oracle : Nat → Except E D) :
    List Nat → Option E → Nat → List ℚ → DossierTrace E D
  | [], lastErr, calls, sleeps => ⟨.error lastErr, calls, sleeps⟩
  | a :: rest, _lastErr, calls, sleeps =>
    match oracle a with
    | .ok d => ⟨.ok d, calls + 1, sleeps⟩
    | .error e => dossierGo oracle rest (some e) (calls + 1) (sleeps ++ [(3 : ℚ) / 2 * (a + 1)])

def buildCompanyDossierTrace (oracle : Nat → Except E D) : DossierTrace E D :=
  dossierGo oracle [0, 1, 2] none 0 []

/-! ## `pipeline/enricher.py` stage functions

The stage functions are embedded at their I/O boundary: the fetched
snapshots (`site`, `serp`, `news`, `posts`), the cascade's decision `llm`
and the clock value `now` are passed in explicitly; everything the source
computes from them is embedded. -/

def truthyOpt : Option PyVal → Bool
  | none => false
  | some v => v.truthy

def obsoleteProfileFields : List String :=
  ["summary", "insights", "latest_news", "articles", "linkedin_posts",
   "profile_refreshed_at", "media_refreshed_at", "dossier_refreshed_at"]

def isoClearedFields : List String :=
  ["category", "services", "merchant_segments", "partnerships"]

def dossierDefaultFields : List String :=
  ["dossier_summary", "dossier_wins", "dossier_setbacks", "dossier_regulatory",
   "dossier_workforce", "dossier_quotes", "dossier_sources", "dossier_error"]

/-- `_evaluate_relevance`. -/
def evaluateRelevance (profile : String) (payload : LLMEnrichment)
    (hasSoftware : Bool) : Bool :=
  if profile = "software" then
    if !hasSoftware then false
    else if payload.business_model ∉ ["product", "platform", "hybrid"] then false
    else if payload.market_focus ∉ ["B2B", "B2B2C", "B2G"] then false
    else true
  else
    if payload.category ∉ ["Payment Processor", "Payment Service Provider",
        "ISO/MSP", "Acquirer", "Hybrid"] then false
    else if !hasSoftware then false
    else
      let servicesText := pyLower (joinWith " " payload.iso_services)
      ["processing", "merchant", "gateway", "pos", "risk", "settlement",
       "acquiring", "chargeback"].any (fun kw => strContains servicesText kw)

/-- `collect_profile` (stage 1): the written row fields, given the cascade
decision; `news_items` and `linkedin_posts` are `[]` in this stage. -/
def collectProfile (row : Row) (profile : String) (site : SiteData)
    (serp : SerpResult) (llm : LLMEnrichment) (now : String) : Row :=
  let fusion := mergeSoftwareSignals site serp [] [] llm
  let hasSoftware := fusion.1
  let softwareProducts := fusion.2
  let r := row
  let r := rowSet r "profile" (.vstr profile)
  let r := rowSet r "baseline_summary" (.vstr llm.summary)
  let r := rowSet r "insight_bullet" (.vstr llm.insights)
  let r := rowSet r "has_software" (.vbool hasSoftware)
  let r := rowSet r "software_products" (.vstr (joinWith ", " (softwareProducts.take 8)))
  let r := rowSet r "business_model" (.vstr llm.business_model)
  let r := rowSet r "market_focus" (.vstr llm.market_focus)
  let r :=
    if profile ≠ "software" then
      let r := rowSet r "category" (.vstr llm.category)
      let r := rowSet r "services" (.vstr (joinWith ", " (llm.iso_services.take 8)))
      let r := rowSet r "merchant_segments" (.vstr (joinWith ", " (llm.merchant_segments.take 8)))
      rowSet r "partnerships" (.vstr (joinWith ", " (llm.partnerships.take 8)))
    else
      isoClearedFields.foldl (fun r f => if rowHas r f then rowSet r f (.vstr "") else r) r
  let r := rowSet r "is_relevant" (.vbool (evaluateRelevance profile llm hasSoftware))
  let r := dossierDefaultFields.foldl (fun r f => rowSetDefault r f (.vstr "")) r
  let r := rowSet r "updated_stages" (.vstr (markStage (rowGet row "updated_stages") "1"))
  let r := rowSet r "last_updated" (.vstr now)
  obsoleteProfileFields.foldl (fun r f => rowPop r f) r

def optStrVal : Option String → PyVal
  | none => .vnone
  | some s => .vstr s

/-- `ExternalArticle.as_dict`. -/
def articleAsDict (a : ExternalArticle) : PyVal :=
  .vdict [("title", .vstr a.title), ("url", .vstr a.url), ("source", .vstr a.source),
          ("published_at", optStrVal a.published_at), ("summary", optStrVal a.summary)]

/-- `LinkedInPost.as_dict`. -/
def postAsDict (p : LinkedInPost) : PyVal :=
  .vdict [("title", .vstr p.title), ("text", .vstr p.text), ("url", .vstr p.url),
          ("author", optStrVal p.author), ("published_at", optStrVal p.published_at)]

/-- One line of `_highlight_from_articles`. -/
def articleHighlightLine (a : ExternalArticle) : String :=
  let parts :=
    (match a.published_at with | some s => if s ≠ "" then [s] else [] | none => []) ++
    (if a.title ≠ "" then [a.title] else []) ++
    (if a.source ≠ "" then ["(" ++ a.source ++ ")"] else []) ++
    (match a.summary with | some s => if s ≠ "" then [s] else [] | none => [])
  let line := joinWith " — " (parts.filter (· ≠ ""))
  if a.url ≠ "" then (if line ≠ "" then line ++ " ⇒ " ++ a.url else a.url) else line

def highlightFromArticles (articles : List ExternalArticle) : String :=
  joinNL ((((articles.take 3).map articleHighlightLine).filter (· ≠ "")).map
    (fun l => "- " ++ l))

/-- One line of `_highlight_from_posts`. -/
def postHighlightLine (p : LinkedInPost) : String :=
  let parts :=
    (match p.published_at with | some s => if s ≠ "" then [s] else [] | none => []) ++
    (if p.text ≠ "" then [p.text] else [])
  let line := joinWith " — " parts
  if p.url ≠ "" then (if line ≠ "" then line ++ " ⇒ " ++ p.url else p.url) else line

def highlightFromPosts (posts : List LinkedInPost) : String :=
  joinNL ((((posts.take 3).map postHighlightLine).filter (· ≠ "")).map
    (fun l => "- " ++ l))

/-- `(row.get(k) or "")` coerced to a string. -/
def rowStrOr (row : Row) (k : String) : String :=
  match rowGet row k with
  | some v => if v.truthy then pyStr v else ""
  | none => ""

/-- The software-signal union recomputed by `collect_media`: the row's
existing comma-separated products unioned with candidates extracted from
the summaries of the first 5 fetched news articles, sorted. -/
def mediaSoftwareUnion (row : Row) (news : List ExternalArticle) : List String :=
  let existing := ((pySplitComma (rowStrOr row "software_products")).map pyStrip).filter (· ≠ "")
  let candidates := filterSoftwareCandidates (collectCandidateProducts
    ((news.take 5).filterMap (fun a =>
      match a.summary with
      | some s => if s ≠ "" then some s else none
      | none => none)))
  List.insertionSort strLe (dedupFirst (existing ++ candidates))

/-- `collect_media` (stage 2). -/
def collectMedia (row : Row) (profile : String) (serp : SerpResult)
    (news : List ExternalArticle) (posts : List LinkedInPost)
    (linkedinLimit : Nat) (now : String) : Row :=
  let newsRaw := (news.take 5).map articleAsDict
  let serpRaw := (serp.articles.take 5).map articleAsDict
  let linkedinRaw := (posts.take linkedinLimit).map postAsDict
  let r := row
  let r := rowSet r "news_highlight" (.vstr (highlightFromArticles news))
  let r := rowSet r "article_highlight" (.vstr (highlightFromArticles serp.articles))
  let r := rowSet r "linkedin_highlight" (.vstr (highlightFromPosts posts))
  let r := rowSet r "signal_confidence"
    (.vint (min 100 ((news.length + serp.articles.length + posts.length) * 15)))
  let r := rowSet r "_news_raw" (.vlist newsRaw)
  let r := rowSet r "_articles_raw" (.vlist serpRaw)
  let r := rowSet r "_linkedin_raw" (.vlist linkedinRaw)
  let r :=
    if profile = "software" ∧ ¬truthyOpt (rowGet row "has_software") then
      let merged := mediaSoftwareUnion row news
      let r := rowSet r "software_products" (.vstr (joinWith ", " (merged.take 10)))
      rowSet r "has_software" (.vbool (!merged.isEmpty))
    else r
  let r := rowSet r "updated_stages" (.vstr (markStage (rowGet row "updated_stages") "2"))
  let r := rowSet r "last_updated" (.vstr now)
  ["articles", "latest_news", "linkedin_posts", "media_refreshed_at"].foldl
    (fun r f => rowPop r f) r

/-! ## `cli.py` per-row job collection -/

/-- `int(row.get("__row", idx + 1))`. -/
def stageRowKey (idx : Nat) (row : Row) : Int :=
  match rowGet row "__row" with
  | none => (idx + 1 : Int)
  | some (.vint n) => n
  | some (.vstr s) => s.toInt?.getD 0
  | some (.vbool b) => if b then 1 else 0
  | some _ => 0

/-- One iteration of the collection loop: a per-row failure is caught and
the row is skipped; a success is written into the update map under the
row's addressing key. -/
def runStageStep (f : Nat → Row → Except String Row)
    (updates : List (Int × Row)) (job : Nat × Row) : List (Int × Row) :=
  match f job.1 job.2 with
  | .ok enriched => dSet updates (stageRowKey job.1 job.2) enriched
  | .error _ => updates

/-- The stage driver of `cli.py` (`scrape`/`media`/`dossier`): enumerate
the target rows, run the stage function on each, collect successes keyed
by the row's addressing key. -/
def runStage (rows : List Row) (f : Nat → Row → Except String Row) :
    List (Int × Row) :=
  rows.enum.foldl (runStageStep f) []

/-! ## Spec-side reference definitions (for comparison only) -/

/-- The texts scanned by the three fusion sources, in source order. -/
def fusionTexts (site : SiteData) (news : List ExternalArticle)
    (posts : List LinkedInPost) : List String :=
  site.pages.map (·.text) ++ news.map (fun a => a.summary.getD "") ++ posts.map (·.text)

/-- The candidate pipeline each fusion source goes through. -/
def softwareCandidatesOf (texts : List String) : List String :=
  filterSoftwareCandidates (collectCandidateProducts texts)

/-- Modelled from the spec's words: the fusion's product list as claimed —
the sorted, duplicate-free union of the filtered candidates of the three
sources with the decision's declared products (no further filtering). -/
def specFusionProducts (site : SiteData) (news : List ExternalArticle)
    (posts : List LinkedInPost) (llm : LLMEnrichment) : List String :=
  List.insertionSort strLe (dedupFirst
    (llm.software_products ++ softwareCandidatesOf (site.pages.map (·.text)) ++
      softwareCandidatesOf (news.map (fun a => a.summary.getD "")) ++
      softwareCandidatesOf (posts.map (·.text))))

def specNumericFirstKey (v : String) : Nat × Nat :=
  if pyIsDigit v then (0, digitsToNat v.data) else (1, 0)

/-- Modelled from the spec's words: the claimed marker order — numeric
stage ids (in numeric order) before non-numeric ones. -/
def specNumericFirstLe (a b : String) : Prop :=
  (specNumericFirstKey a).1 < (specNumericFirstKey b).1 ∨
    ((specNumericFirstKey a).1 = (specNumericFirstKey b).1 ∧
      ((specNumericFirstKey a).2 < (specNumericFirstKey b).2 ∨
        ((specNumericFirstKey a).2 = (specNumericFirstKey b).2 ∧ strLe a b)))

instance : DecidableRel specNumericFirstLe := fun a b => by
  unfold specNumericFirstLe; infer_instance

/-- Modelled from the spec's words: `markStage` as claimed — the
serialization of the token union sorted numeric-first. -/
def markStageSpec (marker : Option PyVal) (stage : String) : String :=
  joinComma (List.insertionSort specNumericFirstLe (dedupFirst (markerTokens marker ++ [stage])))

/-- The row fields explicitly assigned by `collect_profile`. -/
def profileStageFields : List String :=
  ["profile", "baseline_summary", "insight_bullet", "has_software", "software_products",
   "business_model", "market_focus", "category", "services", "merchant_segments",
   "partnerships", "is_relevant", "updated_stages", "last_updated"]

/-! # Theorems -/

/-! ## Shared helper lemmas -/

theorem contains_eq_decide_mem (l : List String) (a : String) :
    l.contains a = decide (a ∈ l) := List.elem_eq_mem a l

/-! ## Row dictionary lemmas -/

theorem find?_map_rowset (r : Row) (k : String) (v : PyVal) (h : rowHas r k = true) :
    (r.map (fun e => if e.1 == k then (k, v) else e)).find? (fun e => e.1 == k) =
      some (k, v) := by
  induction r with
  | nil => simp [rowHas] at h
  | cons e rest ih =>
    simp only [List.map_cons]
    by_cases hek : e.1 = k
    · rw [if_pos (by simpa using hek)]
      simp [List.find?_cons]
    · rw [if_neg (by simpa using hek)]
      have h4 : (e.1 == k) = false := by simpa using hek
      simp only [List.find?_cons, h4]
      apply ih
      unfold rowHas at h ⊢
      simpa [h4] using h

theorem find?_map_rowset_other (r : Row) (k kp : String) (v : PyVal) (h : k ≠ kp) :
    (r.map (fun e => if e.1 == kp then (kp, v) else e)).find? (fun e => e.1 == k) =
      r.find? (fun e => e.1 == k) := by
  induction r with
  | nil => rfl
  | cons e rest ih =>
    simp only [List.map_cons]
    by_cases hek : e.1 = kp
    · have h1 : ((kp, v).1 == k) = false := by
        simpa using fun hc : kp = k => h hc.symm
      have h2 : (e.1 == k) = false := by
        rw [hek]
        simpa using fun hc : kp = k => h hc.symm
      rw [if_pos (by simpa using hek)]
      simp only [List.find?_cons, h1, h2]
      exact ih
    · rw [if_neg (by simpa using hek)]
      by_cases hK : e.1 = k
      · have h3 : (e.1 == k) = true := by simpa using hK
        simp only [List.find?_cons, h3]
      · have h4 : (e.1 == k) = false := by simpa using hK
        simp only [List.find?_cons, h4]
        exact ih

theorem rowGet_rowSet_self (r : Row) (k : String) (v : PyVal) :
    rowGet (rowSet r k v) k = some v := by
  unfold rowSet
  split
  · next h =>
    unfold rowGet
    rw [find?_map_rowset r k v h]
    rfl
  · next h =>
    unfold rowGet
    rw [List.find?_append]
    have hn : r.find? (fun e => e.1 == k) = none := by
      rw [List.find?_eq_none]
      intro e he hbeq
      exact h (by unfold rowHas; rw [List.any_eq_true]; exact ⟨e, he, hbeq⟩)
    rw [hn]
    simp [List.find?]

theorem rowGet_rowSet_other (r : Row) (k kp : String) (v : PyVal) (h : k ≠ kp) :
    rowGet (rowSet r kp v) k = rowGet r k := by
  unfold rowSet
  split
  · unfold rowGet
    rw [find?_map_rowset_other r k kp v h]
  · unfold rowGet
    rw [List.find?_append]
    have h2 : ([(kp, v)] : Row).find? (fun e => e.1 == k) = none := by
      have hb : (kp == k) = false := by simpa using fun hc : kp = k => h hc.symm
      simp [List.find?, hb]
    rw [h2, Option.or_none]

theorem rowGet_rowPop_self (r : Row) (k : String) : rowGet (rowPop r k) k = none := by
  unfold rowPop rowGet
  have h : (r.filter (fun e => e.1 != k)).find? (fun e => e.1 == k) = none := by
    rw [List.find?_eq_none]
    intro e he
    have h2 := (List.mem_filter.mp he).2
    simpa using h2
  rw [h]
  rfl

theorem find?_filter_ne (r : Row) (k kp : String) (h : k ≠ kp) :
    (r.filter (fun e => e.1 != kp)).find? (fun e => e.1 == k) =
      r.find? (fun e => e.1 == k) := by
  induction r with
  | nil => rfl
  | cons e rest ih =>
    by_cases hek : e.1 = kp
    · have hb : (e.1 != kp) = false := by simp [hek]
      have hkk : (e.1 == k) = false := by
        rw [hek]
        simpa using fun hc : kp = k => h hc.symm
      simp only [List.filter_cons, hb, Bool.false_eq_true, if_false, List.find?_cons, hkk]
      exact ih
    · have hb : (e.1 != kp) = true := by simp [hek]
      simp only [List.filter_cons, hb, if_true, List.find?_cons]
      cases hkk : (e.1 == k)
      · exact ih
      · rfl

theorem rowGet_rowPop_other (r : Row) (k kp : String) (h : k ≠ kp) :
    rowGet (rowPop r kp) k = rowGet r k := by
  unfold rowPop rowGet
  rw [find?_filter_ne r k kp h]

theorem rowSetDefault_has (r : Row) (k : String) (v : PyVal) (h : rowHas r k = true) :
    rowSetDefault r k v = r := by
  unfold rowSetDefault
  rw [if_pos h]

theorem rowGet_rowSetDefault_other (r : Row) (k kp : String) (v : PyVal) (h : k ≠ kp) :
    rowGet (rowSetDefault r kp v) k = rowGet r k := by
  unfold rowSetDefault
  split
  · rfl
  · unfold rowGet
    rw [List.find?_append]
    have h2 : ([(kp, v)] : Row).find? (fun e => e.1 == k) = none := by
      have hb : (kp == k) = false := by simpa using fun hc : kp = k => h hc.symm
      simp [List.find?, hb]
    rw [h2, Option.or_none]

theorem rowHas_rowSetDefault_of (r : Row) (k kp : String) (v : PyVal)
    (h : rowHas r k = true) : rowHas (rowSetDefault r kp v) k = true := by
  unfold rowSetDefault
  split
  · exact h
  · unfold rowHas at h ⊢
    simp [List.any_append, h]

theorem any_key_map_replace (r : Row) (k kp : String) (v : PyVal) :
    (r.map (fun e => if e.1 == kp then (kp, v) else e)).any (fun e => e.1 == k) =
      r.any (fun e => e.1 == k) := by
  induction r with
  | nil => rfl
  | cons e rest ih =>
    simp only [List.map_cons, List.any_cons]
    by_cases hek : e.1 = kp
    · rw [if_pos (by simpa using hek)]
      rw [ih, hek]
    · rw [if_neg (by simpa using hek)]
      rw [ih]

theorem rowHas_rowSet_other (r : Row) (k kp : String) (v : PyVal) (h : k ≠ kp) :
    rowHas (rowSet r kp v) k = rowHas r k := by
  unfold rowSet
  split
  · unfold rowHas
    exact any_key_map_replace r k kp v
  · unfold rowHas
    rw [List.any_append]
    have h2 : ([(kp, v)] : Row).any (fun e => e.1 == k) = false := by
      have hb : (kp == k) = false := by simpa using fun hc : kp = k => h hc.symm
      simp [hb]
    rw [h2, Bool.or_false]

theorem rowHas_rowSet_self (r : Row) (k : String) (v : PyVal) :
    rowHas (rowSet r k v) k = true := by
  unfold rowSet
  split
  · next h =>
    unfold rowHas at h ⊢
    rw [List.any_eq_true] at h ⊢
    obtain ⟨e, he, hbeq⟩ := h
    refine ⟨(k, v), List.mem_map.mpr ⟨e, he, ?_⟩, by simp⟩
    rw [if_pos hbeq]
  · unfold rowHas
    rw [List.any_append]
    simp

/-! ## Fold lemmas for the stage functions' field batches -/

theorem rowGet_popFold_not_mem (fields : List String) : ∀ (r : Row) (k : String),
    k ∉ fields →
    rowGet (fields.foldl (fun r f => rowPop r f) r) k = rowGet r k := by
  induction fields with
  | nil => intro r k _; rfl
  | cons f rest ih =>
    intro r k h
    simp only [List.foldl_cons]
    rw [ih _ _ (fun hc => h (List.mem_cons_of_mem f hc)),
      rowGet_rowPop_other _ _ _ (fun hc => h (by simp [hc]))]

theorem rowGet_popFold_mem (fields : List String) : ∀ (r : Row) (k : String),
    k ∈ fields →
    rowGet (fields.foldl (fun r f => rowPop r f) r) k = none := by
  induction fields with
  | nil => intro r k h; cases h
  | cons f rest ih =>
    intro r k h
    simp only [List.foldl_cons]
    by_cases hk : k ∈ rest
    · exact ih _ _ hk
    · have hkf : k = f := by
        rcases List.mem_cons.mp h with h1 | h1
        · exact h1
        · exact absurd h1 hk
      subst hkf
      rw [rowGet_popFold_not_mem rest _ _ hk]
      exact rowGet_rowPop_self r k

theorem rowGet_setdefaultFold_preserve (fields : List String) : ∀ (r : Row) (k : String),
    (k ∉ fields ∨ rowHas r k = true) →
    rowGet (fields.foldl (fun r f => rowSetDefault r f (.vstr "")) r) k = rowGet r k := by
  induction fields with
  | nil => intro r k _; rfl
  | cons f rest ih =>
    intro r k h
    simp only [List.foldl_cons]
    rcases h with h | h
    · rw [ih _ _ (Or.inl (fun hc => h (List.mem_cons_of_mem f hc))),
        rowGet_rowSetDefault_other _ _ _ _ (fun hc => h (by simp [hc]))]
    · have h1 : rowHas (rowSetDefault r f (.vstr "")) k = true :=
        rowHas_rowSetDefault_of _ _ _ _ h
      rw [ih _ _ (Or.inr h1)]
      by_cases hkf : k = f
      · subst hkf
        rw [rowSetDefault_has _ _ _ h]
      · exact rowGet_rowSetDefault_other _ _ _ _ hkf

theorem clearStep_get_preserve (r : Row) (f k : String) (h : k ≠ f) :
    rowGet (if rowHas r f then rowSet r f (.vstr "") else r) k = rowGet r k := by
  split
  · exact rowGet_rowSet_other r k f _ h
  · rfl

theorem clearStep_has_preserve (r : Row) (f k : String) (h : k ≠ f) :
    rowHas (if rowHas r f then rowSet r f (.vstr "") else r) k = rowHas r k := by
  split
  · exact rowHas_rowSet_other r k f _ h
  · rfl

theorem rowGet_clearFold_not_mem (fields : List String) : ∀ (r : Row) (k : String),
    k ∉ fields →
    rowGet (fields.foldl (fun r f => if rowHas r f then rowSet r f (.vstr "") else r) r) k =
      rowGet r k := by
  induction fields with
  | nil => intro r k _; rfl
  | cons f rest ih =>
    intro r k h
    simp only [List.foldl_cons]
    rw [ih _ _ (fun hc => h (List.mem_cons_of_mem f hc)),
      clearStep_get_preserve _ _ _ (fun hc => h (by simp [hc]))]

theorem rowHas_clearFold_not_mem (fields : List String) : ∀ (r : Row) (k : String),
    k ∉ fields →
    rowHas (fields.foldl (fun r f => if rowHas r f then rowSet r f (.vstr "") else r) r) k =
      rowHas r k := by
  induction fields with
  | nil => intro r k _; rfl
  | cons f rest ih =>
    intro r k h
    simp only [List.foldl_cons]
    rw [ih _ _ (fun hc => h (List.mem_cons_of_mem f hc)),
      clearStep_has_preserve _ _ _ (fun hc => h (by simp [hc]))]

theorem rowGet_clearFold_mem (fields : List String) : ∀ (r : Row) (k : String),
    k ∈ fields → rowHas r k = true →
    rowGet (fields.foldl (fun r f => if rowHas r f then rowSet r f (.vstr "") else r) r) k =
      some (.vstr "") := by
  induction fields with
  | nil => intro r k h; cases h
  | cons f rest ih =>
    intro r k hk hhas
    simp only [List.foldl_cons]
    by_cases hkr : k ∈ rest
    · apply ih _ _ hkr
      by_cases hkf : k = f
      · subst hkf
        rw [if_pos hhas]
        exact rowHas_rowSet_self _ _ _
      · rw [clearStep_has_preserve _ _ _ hkf]
        exact hhas
    · have hkf : k = f := by
        rcases List.mem_cons.mp hk with h1 | h1
        · exact h1
        · exact absurd h1 hkr
      subst hkf
      rw [rowGet_clearFold_not_mem rest _ _ hkr]
      rw [if_pos hhas]
      exact rowGet_rowSet_self _ _ _

/-! ## C1: `_merge_rows` preserves length and order -/

/-- C1: for every row list and update map, `mergeRows` has the same length
as the input and its `i`-th element is the update stored under the `i`-th
input row's addressing key when present, and the unchanged `i`-th input row
otherwise; hence row count and relative order are preserved for any subset
of successful updates. -/
theorem merge_rows_pointwise (allRows : List Row) (updates : List (Int × Row)) :
    (mergeRows allRows updates).length = allRows.length ∧
    ∀ i : Nat, (mergeRows allRows updates)[i]? =
      (allRows[i]?).map (fun original => (dGet updates (mergeRowKey original)).getD original) := by
  constructor
  · simp [mergeRows]
  · intro i
    simp [mergeRows]

/-! ## C4: dossier retry policy -/

/-- C4: when every provider call fails, `build_company_dossier` makes
exactly 3 calls (never a fourth), sleeps 1.5, 3.0 and 4.5 seconds — the
strictly increasing sequence `1.5 * attemptNumber` — and raises carrying
the last error. -/
theorem dossier_retry_exhaustion {E D : Type} (oracle : Nat → Except E D)
    (h : ∀ i, i < 3 → ∃ e, oracle i = .error e) :
    (buildCompanyDossierTrace oracle).calls = 3 ∧
    (buildCompanyDossierTrace oracle).sleeps = [3/2, 3, 9/2] ∧
    ((3 : ℚ)/2 < 3 ∧ (3 : ℚ) < 9/2) ∧
    ∃ e2, oracle 2 = .error e2 ∧
      (buildCompanyDossierTrace oracle).result = .error (some e2) := by
  obtain ⟨e0, h0⟩ := h 0 (by omega)
  obtain ⟨e1, h1⟩ := h 1 (by omega)
  obtain ⟨e2, h2⟩ := h 2 (by omega)
  refine ⟨?_, ?_, ⟨by norm_num, by norm_num⟩, e2, h2, ?_⟩
  all_goals simp [buildCompanyDossierTrace, dossierGo, h0, h1, h2]
  all_goals norm_num

/-- Witness for C4 at a concrete always-failing oracle. -/
theorem dossier_retry_exhaustion_witness :
    (buildCompanyDossierTrace (fun _ => (.error "boom" : Except String Nat))).calls = 3 ∧
    (buildCompanyDossierTrace (fun _ => (.error "boom" : Except String Nat))).sleeps =
      [3/2, 3, 9/2] ∧
    (buildCompanyDossierTrace (fun _ => (.error "boom" : Except String Nat))).result =
      .error (some "boom") := by
  obtain ⟨hcalls, hsleeps, _, e2, he2, hres⟩ :=
    dossier_retry_exhaustion (fun _ => (.error "boom" : Except String Nat))
      (fun i _ => ⟨"boom", rfl⟩)
  have : e2 = "boom" := by simpa using he2.symm
  subst this
  exact ⟨hcalls, hsleeps, hres⟩

/-! ## C6: malformed JSON handling (strict/lenient, cascade isolation) -/

/-- C6: for every non-JSON response, `_parse_llm_json` raises iff
`raise_on_error` is set and otherwise returns the default (`data = {}`)
decision without raising; in `build_summary_and_insights` a strict-parse
failure of one provider is caught at that provider's boundary (the run
equals the run with that provider unconfigured), and when both providers
return malformed JSON the cascade ends in the offline heuristic, so
malformed JSON never propagates to the caller. -/
theorem llm_malformed_json_handling :
    (∀ profile content, jsonParse content = none →
      parseLLMJson profile content true = .error "ValueError: LLM response is not valid JSON" ∧
      parseLLMJson profile content false = parseLLMFromData profile [] ∧
      (parseLLMFromData profile []).isOk = true) ∧
    (∀ profile env context badContent, env.openaiKey = true →
      env.openaiResp = .ok badContent → jsonParse badContent = none →
      buildSummaryAndInsights profile env context =
        buildSummaryAndInsights profile
          ⟨false, env.perplexityKey, env.openaiResp, env.perplexityResp⟩ context) ∧
    (∀ profile context oaContent ppContent,
      jsonParse oaContent = none → jsonParse ppContent = none →
      buildSummaryAndInsights profile ⟨true, true, .ok oaContent, .ok ppContent⟩ context =
        heuristicFallback profile context) := by
  have hdefault : ∀ profile, (parseLLMFromData profile []).isOk = true := by
    intro profile
    unfold parseLLMFromData
    by_cases h1 : profile = "iso_msp"
    · simp [h1]; rfl
    · by_cases h2 : profile = "enterprise"
      · simp [h1, h2]; rfl
      · simp [h1, h2]; rfl
  refine ⟨?_, ?_, ?_⟩
  · intro profile content hbad
    exact ⟨by simp [parseLLMJson, hbad], by simp [parseLLMJson, hbad], hdefault profile⟩
  · intro profile env context badContent hkey hresp hbad
    simp [buildSummaryAndInsights, hkey, hresp, tryProvider, parseLLMJson, hbad]
  · intro profile context oaContent ppContent hoa hpp
    simp [buildSummaryAndInsights, tryProvider, parseLLMJson, hoa, hpp]

/-- Witness for C6: both providers return malformed JSON at concrete
inputs and the cascade lands in the offline heuristic. -/
theorem llm_malformed_json_handling_witness :
    parseLLMJson "software" "oops" true =
      .error "ValueError: LLM response is not valid JSON" ∧
    (parseLLMJson "software" "oops" false).isOk = true ∧
    buildSummaryAndInsights "software" ⟨true, true, .ok "oops", .ok "nope"⟩
        ⟨"", "", [], [], []⟩ =
      heuristicFallback "software" ⟨"", "", [], [], []⟩ := by
  obtain ⟨hstrict, hlenient, hok⟩ :=
    llm_malformed_json_handling.1 "software" "oops" rfl
  refine ⟨hstrict, by rw [hlenient]; exact hok, ?_⟩
  exact llm_malformed_json_handling.2.2 "software" ⟨"", "", [], [], []⟩ "oops" "nope" rfl rfl

/-! ## C9: `collect_profile` frame effect (software profile) -/

/-- C9: `collect_profile` with profile `"software"` overwrites the
ISO-specific fields with the empty string when they exist, removes the
obsolete fields, and returns every other input-row field that is not among
the stage's written output fields with its original value. -/
theorem collect_profile_frame (row : Row) (site : SiteData) (serp : SerpResult)
    (llm : LLMEnrichment) (now : String) :
    (∀ f ∈ isoClearedFields, rowHas row f = true →
      rowGet (collectProfile row "software" site serp llm now) f = some (.vstr "")) ∧
    (∀ f ∈ obsoleteProfileFields,
      rowGet (collectProfile row "software" site serp llm now) f = none) ∧
    (∀ k, rowHas row k = true → k ∉ profileStageFields → k ∉ obsoleteProfileFields →
      rowGet (collectProfile row "software" site serp llm now) k = rowGet row k) := by
  simp only [collectProfile]
  rw [if_neg (by simp : ¬("software" ≠ "software"))]
  refine ⟨?_, ?_, ?_⟩
  · intro f hf hhas
    have hobs := (by decide : ∀ x ∈ isoClearedFields, x ∉ obsoleteProfileFields) f hf
    have h1 := (by decide : ∀ x ∈ isoClearedFields, x ≠ "last_updated") f hf
    have h2 := (by decide : ∀ x ∈ isoClearedFields, x ≠ "updated_stages") f hf
    have h3 := (by decide : ∀ x ∈ isoClearedFields, x ∉ dossierDefaultFields) f hf
    have h4 := (by decide : ∀ x ∈ isoClearedFields, x ≠ "is_relevant") f hf
    rw [rowGet_popFold_not_mem _ _ _ hobs,
      rowGet_rowSet_other _ _ _ _ h1,
      rowGet_rowSet_other _ _ _ _ h2,
      rowGet_setdefaultFold_preserve _ _ _ (Or.inl h3),
      rowGet_rowSet_other _ _ _ _ h4]
    apply rowGet_clearFold_mem _ _ _ hf
    have h5 := (by decide : ∀ x ∈ isoClearedFields, x ≠ "market_focus") f hf
    have h6 := (by decide : ∀ x ∈ isoClearedFields, x ≠ "business_model") f hf
    have h7 := (by decide : ∀ x ∈ isoClearedFields, x ≠ "software_products") f hf
    have h8 := (by decide : ∀ x ∈ isoClearedFields, x ≠ "has_software") f hf
    have h9 := (by decide : ∀ x ∈ isoClearedFields, x ≠ "insight_bullet") f hf
    have h10 := (by decide : ∀ x ∈ isoClearedFields, x ≠ "baseline_summary") f hf
    have h11 := (by decide : ∀ x ∈ isoClearedFields, x ≠ "profile") f hf
    rw [rowHas_rowSet_other _ _ _ _ h5, rowHas_rowSet_other _ _ _ _ h6,
      rowHas_rowSet_other _ _ _ _ h7, rowHas_rowSet_other _ _ _ _ h8,
      rowHas_rowSet_other _ _ _ _ h9, rowHas_rowSet_other _ _ _ _ h10,
      rowHas_rowSet_other _ _ _ _ h11]
    exact hhas
  · intro f hf
    exact rowGet_popFold_mem _ _ _ hf
  · intro k hhas hw ho
    have hne : ∀ s, s ∈ profileStageFields → k ≠ s := fun s hs hc => hw (hc ▸ hs)
    have hcl : k ∉ isoClearedFields := fun hc =>
      hw ((by decide : ∀ x ∈ isoClearedFields, x ∈ profileStageFields) k hc)
    rw [rowGet_popFold_not_mem _ _ _ ho,
      rowGet_rowSet_other _ _ _ _ (hne _ (by decide)),
      rowGet_rowSet_other _ _ _ _ (hne _ (by decide)),
      rowGet_setdefaultFold_preserve _ _ _ (Or.inr ?_),
      rowGet_rowSet_other _ _ _ _ (hne _ (by decide)),
      rowGet_clearFold_not_mem _ _ _ hcl,
      rowGet_rowSet_other _ _ _ _ (hne _ (by decide)),
      rowGet_rowSet_other _ _ _ _ (hne _ (by decide)),
      rowGet_rowSet_other _ _ _ _ (hne _ (by decide)),
      rowGet_rowSet_other _ _ _ _ (hne _ (by decide)),
      rowGet_rowSet_other _ _ _ _ (hne _ (by decide)),
      rowGet_rowSet_other _ _ _ _ (hne _ (by decide)),
      rowGet_rowSet_other _ _ _ _ (hne _ (by decide))]
    rw [rowHas_rowSet_other _ _ _ _ (hne _ (by decide)),
      rowHas_clearFold_not_mem _ _ _ hcl,
      rowHas_rowSet_other _ _ _ _ (hne _ (by decide)),
      rowHas_rowSet_other _ _ _ _ (hne _ (by decide)),
      rowHas_rowSet_other _ _ _ _ (hne _ (by decide)),
      rowHas_rowSet_other _ _ _ _ (hne _ (by decide)),
      rowHas_rowSet_other _ _ _ _ (hne _ (by decide)),
      rowHas_rowSet_other _ _ _ _ (hne _ (by decide)),
      rowHas_rowSet_other _ _ _ _ (hne _ (by decide))]
    exact hhas

/-- Witness for C9 at a concrete row. -/
theorem collect_profile_frame_witness :
    rowGet (collectProfile [("__row", PyVal.vint 1), ("category", .vstr "old"),
        ("summary", .vstr "obsolete"), ("custom", .vstr "keep")]
      "software" ⟨[]⟩ ⟨"", []⟩ { summary := "s", insights := "i" } "t") "category" =
      some (.vstr "") ∧
    rowGet (collectProfile [("__row", PyVal.vint 1), ("category", .vstr "old"),
        ("summary", .vstr "obsolete"), ("custom", .vstr "keep")]
      "software" ⟨[]⟩ ⟨"", []⟩ { summary := "s", insights := "i" } "t") "summary" = none ∧
    rowGet (collectProfile [("__row", PyVal.vint 1), ("category", .vstr "old"),
        ("summary", .vstr "obsolete"), ("custom", .vstr "keep")]
      "software" ⟨[]⟩ ⟨"", []⟩ { summary := "s", insights := "i" } "t") "custom" =
      some (.vstr "keep") := by
  obtain ⟨h1, h2, h3⟩ := collect_profile_frame
    [("__row", PyVal.vint 1), ("category", .vstr "old"),
      ("summary", .vstr "obsolete"), ("custom", .vstr "keep")]
    ⟨[]⟩ ⟨"", []⟩ { summary := "s", insights := "i" } "t"
  refine ⟨h1 "category" (by decide) (by decide), h2 "summary" (by decide), ?_⟩
  rw [h3 "custom" (by decide) (by decide) (by decide)]
  rfl

/-! ## C10: `collect_media` software-signal frame effect -/

/-- C10: `collect_media` changes `has_software`/`software_products` only
when the profile is `"software"` and the input row's `has_software` is
falsy; in that case `software_products` becomes the comma-joined sorted
deduplicated union (capped at 10) of the row's existing products with the
candidates extracted from the fetched news summaries, and `has_software`
is true exactly when that union is non-empty; otherwise both fields keep
their input values. -/
theorem collect_media_frame (row : Row) (profile : String) (serp : SerpResult)
    (news : List ExternalArticle) (posts : List LinkedInPost) (lim : Nat) (now : String) :
    (profile ≠ "software" ∨ truthyOpt (rowGet row "has_software") = true →
      rowGet (collectMedia row profile serp news posts lim now) "has_software" =
        rowGet row "has_software" ∧
      rowGet (collectMedia row profile serp news posts lim now) "software_products" =
        rowGet row "software_products") ∧
    (profile = "software" → truthyOpt (rowGet row "has_software") = false →
      rowGet (collectMedia row profile serp news posts lim now) "software_products" =
        some (.vstr (joinWith ", " ((mediaSoftwareUnion row news).take 10))) ∧
      rowGet (collectMedia row profile serp news posts lim now) "has_software" =
        some (.vbool (!(mediaSoftwareUnion row news).isEmpty)) ∧
      ((!(mediaSoftwareUnion row news).isEmpty) = true ↔ mediaSoftwareUnion row news ≠ [])) := by
  constructor
  · intro hcase
    have hc : ¬(profile = "software" ∧ ¬truthyOpt (rowGet row "has_software") = true) := by
      rcases hcase with h | h
      · exact fun hand => h hand.1
      · exact fun hand => hand.2 h
    simp only [collectMedia]
    rw [if_neg hc]
    constructor
    · rw [rowGet_popFold_not_mem _ _ _ (by decide),
        rowGet_rowSet_other _ _ _ _ (by decide),
        rowGet_rowSet_other _ _ _ _ (by decide),
        rowGet_rowSet_other _ _ _ _ (by decide),
        rowGet_rowSet_other _ _ _ _ (by decide),
        rowGet_rowSet_other _ _ _ _ (by decide),
        rowGet_rowSet_other _ _ _ _ (by decide),
        rowGet_rowSet_other _ _ _ _ (by decide),
        rowGet_rowSet_other _ _ _ _ (by decide),
        rowGet_rowSet_other _ _ _ _ (by decide)]
    · rw [rowGet_popFold_not_mem _ _ _ (by decide),
        rowGet_rowSet_other _ _ _ _ (by decide),
        rowGet_rowSet_other _ _ _ _ (by decide),
        rowGet_rowSet_other _ _ _ _ (by decide),
        rowGet_rowSet_other _ _ _ _ (by decide),
        rowGet_rowSet_other _ _ _ _ (by decide),
        rowGet_rowSet_other _ _ _ _ (by decide),
        rowGet_rowSet_other _ _ _ _ (by decide),
        rowGet_rowSet_other _ _ _ _ (by decide),
        rowGet_rowSet_other _ _ _ _ (by decide)]
  · intro hp ht
    simp only [collectMedia]
    rw [if_pos ⟨hp, by simp [ht]⟩]
    refine ⟨?_, ?_, ?_⟩
    · rw [rowGet_popFold_not_mem _ _ _ (by decide),
        rowGet_rowSet_other _ _ _ _ (by decide),
        rowGet_rowSet_other _ _ _ _ (by decide),
        rowGet_rowSet_other _ _ _ _ (by decide)]
      exact rowGet_rowSet_self _ _ _
    · rw [rowGet_popFold_not_mem _ _ _ (by decide),
        rowGet_rowSet_other _ _ _ _ (by decide),
        rowGet_rowSet_other _ _ _ _ (by decide)]
      exact rowGet_rowSet_self _ _ _
    · simp [List.isEmpty_iff]

/-- Witness for C10: a row with a truthy `has_software` keeps both fields;
a software-profile row without it gets the recomputed union. -/
theorem collect_media_frame_witness :
    rowGet (collectMedia [("has_software", PyVal.vbool true),
        ("software_products", .vstr "X")] "software" ⟨"", []⟩ [] [] 3 "t")
      "has_software" = some (.vbool true) ∧
    rowGet (collectMedia [("software_products", PyVal.vstr "AlphaSuite")]
        "software" ⟨"", []⟩ [] [] 3 "t") "software_products" =
      some (.vstr "AlphaSuite") := by
  constructor
  · rw [(collect_media_frame [("has_software", PyVal.vbool true),
      ("software_products", .vstr "X")] "software" ⟨"", []⟩ [] [] 3 "t").1
        (Or.inr (by decide))|>.1]
    rfl
  · rw [((collect_media_frame [("software_products", PyVal.vstr "AlphaSuite")]
      "software" ⟨"", []⟩ [] [] 3 "t").2 rfl (by decide)).1]
    rfl

/-! ## Order lemmas for the code-point string order -/

theorem lexLt_irrefl : ∀ l : List Char, lexLt l l = false := by
  intro l
  induction l with
  | nil => rfl
  | cons c rest ih => simp [lexLt, ih, lt_irrefl]

theorem lexLt_trans : ∀ a b c : List Char,
    lexLt a b = true → lexLt b c = true → lexLt a c = true := by
  intro a
  induction a with
  | nil =>
    intro b c hab hbc
    cases b with
    | nil => simp [lexLt] at hab
    | cons y ys =>
      cases c with
      | nil => simp [lexLt] at hbc
      | cons z zs => simp [lexLt]
  | cons x xs ih =>
    intro b c hab hbc
    cases b with
    | nil => simp [lexLt] at hab
    | cons y ys =>
      cases c with
      | nil => simp [lexLt] at hbc
      | cons z zs =>
        simp only [lexLt, Bool.or_eq_true, Bool.and_eq_true, decide_eq_true_eq,
          beq_iff_eq] at hab hbc ⊢
        rcases hab with h1 | ⟨he1, h1p⟩ <;> rcases hbc with h2 | ⟨he2, h2p⟩
        · exact Or.inl (lt_trans h1 h2)
        · exact Or.inl (he2 ▸ h1)
        · exact Or.inl (he1 ▸ h2)
        · exact Or.inr ⟨he1.trans he2, ih ys zs h1p h2p⟩

theorem lexLt_connex : ∀ a b : List Char,
    lexLt a b = false → lexLt b a = false → a = b := by
  intro a
  induction a with
  | nil =>
    intro b h1 _
    cases b with
    | nil => rfl
    | cons y ys => simp [lexLt] at h1
  | cons x xs ih =>
    intro b h1 h2
    cases b with
    | nil => simp [lexLt] at h2
    | cons y ys =>
      simp only [lexLt, Bool.or_eq_false_iff, Bool.and_eq_false_iff,
        decide_eq_false_iff_not, beq_eq_false_iff_ne, ne_eq] at h1 h2
      have hxy : x = y := le_antisymm (le_of_not_lt h2.1) (le_of_not_lt h1.1)
      subst hxy
      rcases h1.2 with hne | hf1
      · exact absurd rfl hne
      rcases h2.2 with hne | hf2
      · exact absurd rfl hne
      rw [ih ys hf1 hf2]

instance : IsTrans String strLe := ⟨by
  intro a b c hab hbc
  rcases hab with h1 | rfl
  · rcases hbc with h2 | rfl
    · exact Or.inl (lexLt_trans _ _ _ h1 h2)
    · exact Or.inl h1
  · exact hbc⟩

instance : IsAntisymm String strLe := ⟨by
  intro a b hab hba
  rcases hab with h1 | rfl
  · rcases hba with h2 | rfl
    · have hcontra := lexLt_trans _ _ _ h1 h2
      rw [lexLt_irrefl] at hcontra
      exact absurd hcontra (by simp)
    · rfl
  · rfl⟩

instance : IsTotal String strLe := ⟨by
  intro a b
  cases h1 : lexLt a.data b.data
  · cases h2 : lexLt b.data a.data
    · have hd := lexLt_connex _ _ h1 h2
      cases a; cases b
      exact Or.inl (Or.inr (congrArg String.mk hd))
    · exact Or.inr (Or.inl h2)
  · exact Or.inl (Or.inl h1)⟩

theorem stageSortKey_snd (v : String) : (stageSortKey v).2 = v := by
  unfold stageSortKey
  split <;> rfl

instance : IsTrans String stageLe := ⟨by
  intro a b c hab hbc
  rcases hab with h1 | ⟨he1, hs1⟩ <;> rcases hbc with h2 | ⟨he2, hs2⟩
  · exact Or.inl (lt_trans h1 h2)
  · exact Or.inl (he2 ▸ h1)
  · exact Or.inl (he1 ▸ h2)
  · exact Or.inr ⟨he1.trans he2, IsTrans.trans _ _ _ hs1 hs2⟩⟩

instance : IsAntisymm String stageLe := ⟨by
  intro a b hab hba
  rcases hab with h1 | ⟨he1, hs1⟩
  · rcases hba with h2 | ⟨he2, hs2⟩
    · omega
    · omega
  · rcases hba with h2 | ⟨he2, hs2⟩
    · omega
    · have hsnd := IsAntisymm.antisymm _ _ hs1 hs2
      rwa [stageSortKey_snd, stageSortKey_snd] at hsnd⟩

instance : IsTotal String stageLe := ⟨by
  intro a b
  rcases Nat.lt_trichotomy (stageSortKey a).1 (stageSortKey b).1 with h | h | h
  · exact Or.inl (Or.inl h)
  · rcases IsTotal.total (r := strLe) (stageSortKey a).2 (stageSortKey b).2 with hs | hs
    · exact Or.inl (Or.inr ⟨h, hs⟩)
    · exact Or.inr (Or.inr ⟨h.symm, hs⟩)
  · exact Or.inr (Or.inl h)⟩

/-! ## Strip / split / join lemmas for the stage marker -/

theorem dropWhile_head?_not (p : Char → Bool) :
    ∀ (l : List Char) (c : Char), (l.dropWhile p).head? = some c → p c = false := by
  intro l
  induction l with
  | nil => intro c h; simp at h
  | cons a rest ih =>
    intro c h
    rw [List.dropWhile_cons] at h
    split at h
    · exact ih c h
    · next hpa =>
      simp only [List.head?_cons, Option.some.injEq] at h
      subst h
      simpa using hpa

theorem dropWhile_eq_self_of_head (p : Char → Bool) (l : List Char)
    (h : ∀ c, l.head? = some c → p c = false) : l.dropWhile p = l := by
  cases l with
  | nil => rfl
  | cons a rest =>
    have ha := h a rfl
    simp [List.dropWhile_cons, ha]

theorem stripChars_idem (cs : List Char) : stripChars (stripChars cs) = stripChars cs := by
  unfold stripChars
  set A := cs.dropWhile Char.isWhitespace with hA
  set B := A.reverse.dropWhile Char.isWhitespace with hB
  have h1 : B.reverse.dropWhile Char.isWhitespace = B.reverse := by
    apply dropWhile_eq_self_of_head
    intro c hc
    rw [List.head?_reverse] at hc
    have hBne : B ≠ [] := by
      intro hB0
      rw [hB0] at hc
      simp at hc
    obtain ⟨t, ht⟩ := hB ▸ List.dropWhile_suffix (l := A.reverse) Char.isWhitespace
    have h2 : A.reverse.getLast? = some c := by
      rw [← ht, List.getLast?_append, hc]
      rfl
    rw [List.getLast?_reverse] at h2
    rw [hA] at h2
    exact dropWhile_head?_not _ _ _ h2
  rw [h1, List.reverse_reverse]
  have h2 : B.dropWhile Char.isWhitespace = B := by
    apply dropWhile_eq_self_of_head
    intro c hc
    rw [hB] at hc
    exact dropWhile_head?_not _ _ _ hc
  rw [h2]

theorem pyStrip_idem (s : String) : pyStrip (pyStrip s) = pyStrip s := by
  unfold pyStrip
  rw [show (String.mk (stripChars s.data)).data = stripChars s.data from rfl, stripChars_idem]

theorem mem_stripChars {cs : List Char} {c : Char} (h : c ∈ stripChars cs) : c ∈ cs := by
  unfold stripChars at h
  rw [List.mem_reverse] at h
  have h2 := (List.dropWhile_sublist Char.isWhitespace).mem h
  rw [List.mem_reverse] at h2
  exact (List.dropWhile_sublist Char.isWhitespace).mem h2

theorem pyStrip_comma_free {s : String} (h : ',' ∉ s.data) : ',' ∉ (pyStrip s).data :=
  fun hc => h (mem_stripChars hc)

theorem splitCommaAux_no_comma : ∀ (cs acc : List Char), ',' ∉ cs →
    splitCommaAux acc cs = [acc.reverse ++ cs] := by
  intro cs
  induction cs with
  | nil => intro acc _; simp [splitCommaAux]
  | cons c rest ih =>
    intro acc h
    have hc : c ≠ ',' := fun hcc => h (by simp [hcc])
    unfold splitCommaAux
    rw [if_neg hc, ih (c :: acc) (fun hm => h (List.mem_cons_of_mem c hm))]
    simp

theorem splitCommaAux_append : ∀ (cs acc rest : List Char), ',' ∉ cs →
    splitCommaAux acc (cs ++ ',' :: rest) = (acc.reverse ++ cs) :: splitCommaAux [] rest := by
  intro cs
  induction cs with
  | nil =>
    intro acc rest _
    simp [splitCommaAux]
  | cons c cs2 ih =>
    intro acc rest h
    have hc : c ≠ ',' := fun hcc => h (by simp [hcc])
    simp only [List.cons_append, splitCommaAux, if_neg hc, List.append_eq]
    rw [ih (c :: acc) rest (fun hm => h (List.mem_cons_of_mem c hm))]
    simp

theorem splitCommaAux_comma_free : ∀ (cs acc : List Char), ',' ∉ acc →
    ∀ l ∈ splitCommaAux acc cs, ',' ∉ l := by
  intro cs
  induction cs with
  | nil =>
    intro acc hacc l hl
    unfold splitCommaAux at hl
    simp only [List.mem_singleton] at hl
    subst hl
    simpa using hacc
  | cons c rest ih =>
    intro acc hacc l hl
    unfold splitCommaAux at hl
    by_cases hc : c = ','
    · rw [if_pos hc] at hl
      rcases List.mem_cons.mp hl with rfl | hl2
      · simpa using hacc
      · exact ih [] (by simp) l hl2
    · rw [if_neg hc] at hl
      refine ih (c :: acc) ?_ l hl
      intro hm
      rcases List.mem_cons.mp hm with h | h
      · exact hc h.symm
      · exact hacc h

theorem str_mk_data (s : String) : String.mk s.data = s := rfl

theorem str_eq_empty_iff (s : String) : s = "" ↔ s.data = [] := by
  constructor
  · intro h
    rw [h]
  · intro h
    cases s with
    | mk d =>
      simp only at h
      rw [h]

theorem pySplitComma_joinComma : ∀ (L : List String), L ≠ [] →
    (∀ s ∈ L, ',' ∉ s.data) → pySplitComma (joinComma L) = L := by
  intro L
  induction L with
  | nil => intro h _; exact absurd rfl h
  | cons s rest ih =>
    intro _ hcf
    cases rest with
    | nil =>
      show pySplitComma s = [s]
      unfold pySplitComma
      rw [splitCommaAux_no_comma s.data [] (hcf s (by simp))]
      simp [str_mk_data]
    | cons s2 rest2 =>
      show pySplitComma (s ++ "," ++ joinComma (s2 :: rest2)) = s :: s2 :: rest2
      unfold pySplitComma
      have hdata : (s ++ "," ++ joinComma (s2 :: rest2)).data =
          s.data ++ ',' :: (joinComma (s2 :: rest2)).data := by
        simp [String.data_append]
      rw [hdata, splitCommaAux_append s.data [] _ (hcf s (by simp))]
      simp only [List.reverse_nil, List.nil_append, List.map_cons, str_mk_data]
      have htail := ih (by simp) (fun t ht => hcf t (by simp [ht]))
      unfold pySplitComma at htail
      rw [htail]

theorem joinComma_ne_empty : ∀ (L : List String), L ≠ [] → (∀ s ∈ L, s ≠ "") →
    joinComma L ≠ "" := by
  intro L
  cases L with
  | nil => intro h _; exact absurd rfl h
  | cons s rest =>
    intro _ hne
    cases rest with
    | nil => exact hne s (by simp)
    | cons s2 rest2 =>
      intro hc
      rw [str_eq_empty_iff] at hc
      simp only [joinComma, String.data_append] at hc
      simp at hc

/-! ## `markerTokens` facts -/

theorem markerTokens_facts (m : Option PyVal) :
    ∀ t ∈ markerTokens m, t ≠ "" ∧ pyStrip t = t := by
  intro t ht
  cases m with
  | none => cases ht
  | some v =>
    simp only [markerTokens] at ht
    by_cases htr : v.truthy
    · rw [if_pos htr] at ht
      cases v
      all_goals
        obtain ⟨hmem, hne⟩ := List.mem_filter.mp ht
        obtain ⟨u, _, hu⟩ := List.mem_map.mp hmem
        exact ⟨by simpa using hne, by rw [← hu, pyStrip_idem]⟩
    · rw [if_neg htr] at ht
      cases ht

theorem markerTokens_vstr_comma_free (s : String) :
    ∀ t ∈ markerTokens (some (.vstr s)), ',' ∉ t.data := by
  intro t ht
  simp only [markerTokens] at ht
  by_cases htr : (PyVal.vstr s).truthy
  · rw [if_pos htr] at ht
    obtain ⟨hmem, _⟩ := List.mem_filter.mp ht
    obtain ⟨u, humem, hu⟩ := List.mem_map.mp hmem
    rw [← hu]
    apply pyStrip_comma_free
    unfold pySplitComma at humem
    obtain ⟨l, hlmem, hl⟩ := List.mem_map.mp humem
    rw [← hl]
    exact splitCommaAux_comma_free s.data [] (by simp) l hlmem
  · rw [if_neg htr] at ht
    cases ht

/-! ## `dedupFirst` lemmas -/

theorem mem_dedupFirstAux : ∀ (l seen : List String) (x : String),
    x ∈ dedupFirstAux seen l ↔ x ∈ l ∧ x ∉ seen := by
  intro l
  induction l with
  | nil => simp [dedupFirstAux]
  | cons a rest ih =>
    intro seen x
    unfold dedupFirstAux
    by_cases ha : a ∈ seen
    · rw [if_pos ha, ih]
      simp only [List.mem_cons]
      constructor
      · rintro ⟨hx, hs⟩
        exact ⟨Or.inr hx, hs⟩
      · rintro ⟨hx | hx, hs⟩
        · exact absurd (hx ▸ ha) hs
        · exact ⟨hx, hs⟩
    · rw [if_neg ha]
      simp only [List.mem_cons, ih]
      constructor
      · rintro (rfl | ⟨hx, hs⟩)
        · exact ⟨Or.inl rfl, ha⟩
        · exact ⟨Or.inr hx, fun hc => hs (Or.inr hc)⟩
      · rintro ⟨rfl | hx, hs⟩
        · exact Or.inl rfl
        · by_cases hxa : x = a
          · exact Or.inl hxa
          · exact Or.inr ⟨hx, by simp [hxa, hs]⟩

theorem mem_dedupFirst (l : List String) (x : String) :
    x ∈ dedupFirst l ↔ x ∈ l := by
  unfold dedupFirst
  rw [mem_dedupFirstAux]
  simp

theorem nodup_dedupFirstAux : ∀ (l seen : List String), (dedupFirstAux seen l).Nodup := by
  intro l
  induction l with
  | nil => intro seen; simp [dedupFirstAux]
  | cons a rest ih =>
    intro seen
    unfold dedupFirstAux
    split
    · exact ih seen
    · refine List.nodup_cons.mpr ⟨?_, ih (a :: seen)⟩
      intro hc
      exact ((mem_dedupFirstAux rest (a :: seen) a).mp hc).2 (List.mem_cons_self a seen)

theorem nodup_dedupFirst (l : List String) : (dedupFirst l).Nodup :=
  nodup_dedupFirstAux l []

theorem dedupFirst_perm {l m : List String} (h : l.Perm m) :
    (dedupFirst l).Perm (dedupFirst m) := by
  apply (List.perm_ext_iff_of_nodup (nodup_dedupFirst _) (nodup_dedupFirst _)).mpr
  intro x
  rw [mem_dedupFirst, mem_dedupFirst]
  exact h.mem_iff

theorem dedupFirstAux_append_mem : ∀ (l seen : List String) (a : String),
    l.Nodup → (∀ x ∈ l, x ∉ seen) → (a ∈ l ∨ a ∈ seen) →
    dedupFirstAux seen (l ++ [a]) = l := by
  intro l
  induction l with
  | nil =>
    intro seen a _ _ ha
    rcases ha with h | h
    · cases h
    · show dedupFirstAux seen [a] = []
      unfold dedupFirstAux
      rw [if_pos h]
      rfl
  | cons x xs ih =>
    intro seen a hnd hs ha
    show dedupFirstAux seen (x :: (xs ++ [a])) = x :: xs
    unfold dedupFirstAux
    rw [if_neg (hs x (by simp))]
    congr 1
    apply ih (x :: seen) a (List.nodup_cons.mp hnd).2
    · intro y hy hc
      rcases List.mem_cons.mp hc with h | h
      · exact (List.nodup_cons.mp hnd).1 (h ▸ hy)
      · exact hs y (by simp [hy]) h
    · rcases ha with h | h
      · rcases List.mem_cons.mp h with h2 | h2
        · exact Or.inr (by simp [h2])
        · exact Or.inl h2
      · exact Or.inr (by simp [h])

theorem dedupFirst_append_mem (l : List String) (a : String) (hnd : l.Nodup)
    (ha : a ∈ l) : dedupFirst (l ++ [a]) = l :=
  dedupFirstAux_append_mem l [] a hnd (by simp) (Or.inl ha)

/-! ## C2: `_mark_stage` reparse and idempotence -/

theorem markStage_reparse (m : Option PyVal) (stage : String)
    (hm : ∀ t ∈ markerTokens m, ',' ∉ t.data)
    (h1 : pyStrip stage = stage) (h2 : stage ≠ "") (h3 : ',' ∉ stage.data) :
    markerTokens (some (.vstr (markStage m stage))) =
      List.insertionSort stageLe (dedupFirst (markerTokens m ++ [stage])) := by
  set L := List.insertionSort stageLe (dedupFirst (markerTokens m ++ [stage])) with hL
  have hLmem : ∀ t ∈ L, t ∈ markerTokens m ++ [stage] := by
    intro t ht
    rw [hL] at ht
    exact (mem_dedupFirst _ _).mp ((List.perm_insertionSort stageLe _).mem_iff.mp ht)
  have hne : ∀ t ∈ L, t ≠ "" := by
    intro t ht
    rcases List.mem_append.mp (hLmem t ht) with h | h
    · exact (markerTokens_facts m t h).1
    · simp only [List.mem_singleton] at h
      subst h
      exact h2
  have hstr : ∀ t ∈ L, pyStrip t = t := by
    intro t ht
    rcases List.mem_append.mp (hLmem t ht) with h | h
    · exact (markerTokens_facts m t h).2
    · simp only [List.mem_singleton] at h
      subst h
      exact h1
  have hcf : ∀ t ∈ L, ',' ∉ t.data := by
    intro t ht
    rcases List.mem_append.mp (hLmem t ht) with h | h
    · exact hm t h
    · simp only [List.mem_singleton] at h
      subst h
      exact h3
  have hLne : L ≠ [] := by
    intro h0
    have hmem1 : stage ∈ L := by
      rw [hL]
      exact (List.perm_insertionSort stageLe _).mem_iff.mpr
        ((mem_dedupFirst _ _).mpr (by simp))
    rw [h0] at hmem1
    cases hmem1
  have hout : markStage m stage = joinComma L := rfl
  rw [hout]
  simp only [markerTokens]
  rw [if_pos (show (PyVal.vstr (joinComma L)).truthy = true by
    simpa [PyVal.truthy] using joinComma_ne_empty L hLne hne)]
  show ((pySplitComma (pyStr (.vstr (joinComma L)))).map pyStrip).filter (· ≠ "") = L
  rw [show pyStr (.vstr (joinComma L)) = joinComma L from rfl]
  rw [pySplitComma_joinComma L hLne hcf]
  rw [List.map_congr_left hstr, List.map_id']
  rw [List.filter_eq_self.mpr (fun a ha => by simpa using hne a ha)]

theorem markStage_idem_aux (m : Option PyVal)
    (hm : ∀ t ∈ markerTokens m, ',' ∉ t.data) :
    markStage (some (.vstr (markStage m "1"))) "1" = markStage m "1" := by
  show joinComma (List.insertionSort stageLe (dedupFirst
      (markerTokens (some (.vstr (markStage m "1"))) ++ ["1"]))) = markStage m "1"
  rw [markStage_reparse m "1" hm (by decide) (by decide) (by decide)]
  set L := List.insertionSort stageLe (dedupFirst (markerTokens m ++ ["1"])) with hL
  have hnodup : L.Nodup := by
    rw [hL]
    exact (List.perm_insertionSort stageLe _).nodup_iff.mpr (nodup_dedupFirst _)
  have h1L : "1" ∈ L := by
    rw [hL]
    exact (List.perm_insertionSort stageLe _).mem_iff.mpr
      ((mem_dedupFirst _ _).mpr (by simp))
  rw [dedupFirst_append_mem L "1" hnodup h1L, hL,
    (List.sorted_insertionSort stageLe _).insertionSort_eq]
  rfl

/-- C2 counterexample: the sort key places the numeric id `"100"` after the
non-numeric id `"z"` (its key `(100, ·)` exceeds the non-numeric sentinel
`99`), contradicting "numeric before non-numeric"; and re-marking is not
idempotent for a structured-list marker whose element contains a comma. -/
theorem mark_stage_counterexample :
    (markStage (some (.vstr "z")) "100" = "z,100" ∧
      markStageSpec (some (.vstr "z")) "100" = "100,z" ∧
      markStage (some (.vstr "z")) "100" ≠ markStageSpec (some (.vstr "z")) "100") ∧
    (markStage (some (.vlist [.vstr "b,a"])) "1" = "1,b,a" ∧
      markStage (some (.vstr (markStage (some (.vlist [.vstr "b,a"])) "1"))) "1" = "1,a,b" ∧
      markStage (some (.vstr (markStage (some (.vlist [.vstr "b,a"])) "1"))) "1" ≠
        markStage (some (.vlist [.vstr "b,a"])) "1") := by
  decide

/-- C2 (amended): `markStage` serializes the union of the parsed marker
tokens with the new stage id, sorted by the key `(int(v), v)` for all-digit
ids and `(99, v)` otherwise (so numeric ids below 99 sort numerically
before non-numeric ones); it is idempotent for every marker whose parsed
tokens are comma-free — in particular for every string marker — and
`markStage("2,3", "1") = "1,2,3"`. -/
theorem mark_stage_amended :
    (∀ (m : Option PyVal) (stage : String),
      (∀ t ∈ markerTokens m, ',' ∉ t.data) → pyStrip stage = stage → stage ≠ "" →
        ',' ∉ stage.data →
        markerTokens (some (.vstr (markStage m stage))) =
          List.insertionSort stageLe (dedupFirst (markerTokens m ++ [stage]))) ∧
    (∀ m : Option PyVal, (∀ t ∈ markerTokens m, ',' ∉ t.data) →
      markStage (some (.vstr (markStage m "1"))) "1" = markStage m "1") ∧
    (∀ s : String, markStage (some (.vstr (markStage (some (.vstr s)) "1"))) "1" =
      markStage (some (.vstr s)) "1") ∧
    markStage (some (.vstr "2,3")) "1" = "1,2,3" := by
  refine ⟨markStage_reparse, markStage_idem_aux, ?_, by decide⟩
  intro s
  exact markStage_idem_aux (some (.vstr s)) (markerTokens_vstr_comma_free s)

/-- Witness for C2 (amended) at a concrete marker. -/
theorem mark_stage_amended_witness :
    markStage (some (.vstr (markStage (some (.vstr "a,b")) "1"))) "1" =
      markStage (some (.vstr "a,b")) "1" :=
  mark_stage_amended.2.1 (some (.vstr "a,b")) (by decide)

/-! ## C3: software-signal fusion -/

theorem mem_softwareCandidatesOf (T : List String) (x : String) :
    x ∈ softwareCandidatesOf T ↔
      softwareKeep x = true ∧ candidateLineOk x = true ∧
        ∃ t ∈ T, x ∈ (pySplitlines t).map pyStrip := by
  unfold softwareCandidatesOf filterSoftwareCandidates collectCandidateProducts
  rw [mem_dedupFirst, List.mem_filter, mem_dedupFirst, List.mem_filter,
    List.mem_flatMap]
  tauto

theorem mem_softwareCandidatesOf_union (A B C : List String) (x : String) :
    x ∈ softwareCandidatesOf (A ++ B ++ C) ↔
      x ∈ softwareCandidatesOf A ∨ x ∈ softwareCandidatesOf B ∨
        x ∈ softwareCandidatesOf C := by
  simp only [mem_softwareCandidatesOf, List.mem_append]
  constructor
  · rintro ⟨hk, ho, t, (ht | ht) | ht, hx⟩
    · exact Or.inl ⟨hk, ho, t, ht, hx⟩
    · exact Or.inr (Or.inl ⟨hk, ho, t, ht, hx⟩)
    · exact Or.inr (Or.inr ⟨hk, ho, t, ht, hx⟩)
  · rintro (⟨hk, ho, t, ht, hx⟩ | ⟨hk, ho, t, ht, hx⟩ | ⟨hk, ho, t, ht, hx⟩)
    · exact ⟨hk, ho, t, Or.inl (Or.inl ht), hx⟩
    · exact ⟨hk, ho, t, Or.inl (Or.inr ht), hx⟩
    · exact ⟨hk, ho, t, Or.inr ht, hx⟩

/-- C3 counterexample: the fusion drops falsy (empty-string) entries, so
with a decision declaring the empty-string product the returned list is
`[]`, not the claimed sorted union `[""]`. -/
theorem fusion_empty_string_counterexample :
    (mergeSoftwareSignals ⟨[]⟩ ⟨"", []⟩ [] []
      { summary := "", insights := "", software_products := [""] }).2 = [] ∧
    specFusionProducts ⟨[]⟩ [] []
      { summary := "", insights := "", software_products := [""] } = [""] ∧
    ([] : List String) ≠ [""] :=
  ⟨rfl, rfl, by simp⟩

/-- C3 (amended): the fusion's product list is the sorted, duplicate-free
union of the software-keyword-filtered candidates of the three text
sources with the decision's declared products, with empty-string entries
removed; `has_software` is `decision.has_software OR products nonempty`;
and the product list is invariant under any permutation of the input text
sources. -/
theorem merge_software_signals_amended (site : SiteData) (serp : SerpResult)
    (news : List ExternalArticle) (posts : List LinkedInPost) (llm : LLMEnrichment) :
    (mergeSoftwareSignals site serp news posts llm).1 =
      (llm.has_software || !(mergeSoftwareSignals site serp news posts llm).2.isEmpty) ∧
    (mergeSoftwareSignals site serp news posts llm).2.Sorted strLe ∧
    (mergeSoftwareSignals site serp news posts llm).2.Nodup ∧
    (∀ x, x ∈ (mergeSoftwareSignals site serp news posts llm).2 ↔
      x ≠ "" ∧ (x ∈ llm.software_products ∨
        x ∈ softwareCandidatesOf (fusionTexts site news posts))) ∧
    (∀ (site2 : SiteData) (news2 : List ExternalArticle) (posts2 : List LinkedInPost),
      (fusionTexts site2 news2 posts2).Perm (fusionTexts site news posts) →
      (mergeSoftwareSignals site2 serp news2 posts2 llm).2 =
        (mergeSoftwareSignals site serp news posts llm).2) := by
  have hmem : ∀ (site' : SiteData) (news' : List ExternalArticle)
      (posts' : List LinkedInPost) (x : String),
      x ∈ (mergeSoftwareSignals site' serp news' posts' llm).2 ↔
        x ≠ "" ∧ (x ∈ llm.software_products ∨
          x ∈ softwareCandidatesOf (fusionTexts site' news' posts')) := by
    intro site' news' posts' x
    unfold mergeSoftwareSignals
    rw [(List.perm_insertionSort strLe _).mem_iff, List.mem_filter, mem_dedupFirst]
    simp only [List.mem_append, decide_eq_true_eq,
      show ∀ T, filterSoftwareCandidates (collectCandidateProducts T) =
        softwareCandidatesOf T from fun _ => rfl,
      fusionTexts, mem_softwareCandidatesOf_union]
    tauto
  have hsorted : ∀ (site' : SiteData) (news' : List ExternalArticle)
      (posts' : List LinkedInPost),
      (mergeSoftwareSignals site' serp news' posts' llm).2.Sorted strLe := by
    intro site' news' posts'
    exact List.sorted_insertionSort strLe _
  have hnodup : ∀ (site' : SiteData) (news' : List ExternalArticle)
      (posts' : List LinkedInPost),
      (mergeSoftwareSignals site' serp news' posts' llm).2.Nodup := by
    intro site' news' posts'
    unfold mergeSoftwareSignals
    exact (List.perm_insertionSort strLe _).nodup_iff.mpr
      ((nodup_dedupFirst _).filter _)
  refine ⟨rfl, hsorted site news posts, hnodup site news posts, hmem site news posts, ?_⟩
  intro site2 news2 posts2 hperm
  apply List.eq_of_perm_of_sorted ?_ (hsorted site2 news2 posts2) (hsorted site news posts)
  apply (List.perm_ext_iff_of_nodup (hnodup site2 news2 posts2) (hnodup site news posts)).mpr
  intro x
  rw [hmem site2 news2 posts2, hmem site news posts]
  have hcand : x ∈ softwareCandidatesOf (fusionTexts site2 news2 posts2) ↔
      x ∈ softwareCandidatesOf (fusionTexts site news posts) := by
    rw [mem_softwareCandidatesOf, mem_softwareCandidatesOf]
    constructor
    · rintro ⟨hk, ho, t, ht, hx⟩
      exact ⟨hk, ho, t, hperm.mem_iff.mp ht, hx⟩
    · rintro ⟨hk, ho, t, ht, hx⟩
      exact ⟨hk, ho, t, hperm.mem_iff.mpr ht, hx⟩
  rw [hcand]

/-- Witness for C3 (amended): permuting the site page texts leaves the
fused product list unchanged. -/
theorem merge_software_signals_amended_witness :
    (mergeSoftwareSignals ⟨[⟨"", "", "SuiteY tool"⟩, ⟨"", "", "ProductX platform"⟩]⟩
      ⟨"", []⟩ [] [] { summary := "", insights := "" }).2 =
    (mergeSoftwareSignals ⟨[⟨"", "", "ProductX platform"⟩, ⟨"", "", "SuiteY tool"⟩]⟩
      ⟨"", []⟩ [] [] { summary := "", insights := "" }).2 :=
  (merge_software_signals_amended
    ⟨[⟨"", "", "ProductX platform"⟩, ⟨"", "", "SuiteY tool"⟩]⟩ ⟨"", []⟩ [] []
    { summary := "", insights := "" }).2.2.2.2
    ⟨[⟨"", "", "SuiteY tool"⟩, ⟨"", "", "ProductX platform"⟩]⟩ [] [] (by decide)

/-! ## C7: per-row failure isolation in the stage driver -/

theorem dGet_eq_none (m : List (Int × Row)) (k : Int) (h : ∀ e ∈ m, e.1 ≠ k) :
    dGet m k = none := by
  unfold dGet
  have hf : m.find? (fun e => e.1 == k) = none :=
    List.find?_eq_none.mpr (by intro e he; simpa using h e he)
  rw [hf]; rfl

theorem dSet_of_not_mem (m : List (Int × Row)) (k : Int) (v : Row)
    (h : ∀ e ∈ m, e.1 ≠ k) : dSet m k v = m ++ [(k, v)] := by
  unfold dSet
  rw [if_neg]
  intro hc
  simp only [List.any_eq_true] at hc
  obtain ⟨e, he, hbeq⟩ := hc
  exact h e he (by simpa using hbeq)

theorem dGet_dSet_self (m : List (Int × Row)) (k : Int) (v : Row)
    (h : ∀ e ∈ m, e.1 ≠ k) : dGet (dSet m k v) k = some v := by
  rw [dSet_of_not_mem m k v h]
  unfold dGet
  rw [List.find?_append, List.find?_eq_none.mpr (by intro e he; simpa using h e he)]
  simp

theorem find?_key_map_replace (m : List (Int × Row)) (k kp : Int) (v : Row) (h : k ≠ kp) :
    (m.map (fun e => if e.1 == kp then (kp, v) else e)).find? (fun e => e.1 == k) =
      m.find? (fun e => e.1 == k) := by
  induction m with
  | nil => rfl
  | cons e rest ih =>
    simp only [List.map_cons]
    by_cases hek : e.1 = kp
    · have h1 : (((kp, v) : Int × Row).1 == k) = false := by
        simpa using fun hc : kp = k => h hc.symm
      have h2 : (e.1 == k) = false := by
        rw [hek]
        simpa using fun hc : kp = k => h hc.symm
      rw [if_pos (by simpa using hek)]
      simp only [List.find?_cons, h1, h2]
      exact ih
    · rw [if_neg (by simpa using hek)]
      by_cases hK : e.1 = k
      · have h3 : (e.1 == k) = true := by simpa using hK
        simp only [List.find?_cons, h3]
      · have h4 : (e.1 == k) = false := by simpa using hK
        simp only [List.find?_cons, h4]
        exact ih

theorem dGet_dSet_other (m : List (Int × Row)) (k kp : Int) (v : Row) (h : k ≠ kp) :
    dGet (dSet m kp v) k = dGet m k := by
  unfold dSet
  split
  · unfold dGet
    rw [find?_key_map_replace m k kp v h]
  · unfold dGet
    rw [List.find?_append]
    have h2 : ([(kp, v)] : List (Int × Row)).find? (fun e => e.1 == k) = none := by
      rw [List.find?_cons_of_neg _ (by simpa using fun hc : kp = k => h hc.symm)]
      rfl
    rw [h2, Option.or_none]

theorem dGet_foldl_runStageStep (f : Nat → Row → Except String Row) :
    ∀ (jobs : List (Nat × Row)) (acc : List (Int × Row)) (k : Int),
      (∀ p ∈ jobs, stageRowKey p.1 p.2 ≠ k) →
      dGet (jobs.foldl (runStageStep f) acc) k = dGet acc k := by
  intro jobs
  induction jobs with
  | nil => intro acc k _; rfl
  | cons q rest ih =>
    intro acc k h
    simp only [List.foldl_cons]
    rw [ih _ _ (fun p hp => h p (by simp [hp]))]
    unfold runStageStep
    cases f q.1 q.2 with
    | ok v => exact dGet_dSet_other _ _ _ _ (fun hkk => (h q (by simp)) hkk.symm)
    | error e => rfl

theorem runStageStep_keys (f : Nat → Row → Except String Row)
    (acc : List (Int × Row)) (q : Nat × Row) (P : Int → Prop)
    (hacc : ∀ e ∈ acc, P e.1) (hq : P (stageRowKey q.1 q.2)) :
    ∀ e ∈ runStageStep f acc q, P e.1 := by
  unfold runStageStep
  cases f q.1 q.2 with
  | error _ => exact hacc
  | ok v =>
    intro e he
    dsimp only at he
    unfold dSet at he
    by_cases hany : (acc.any fun ep => ep.1 == stageRowKey q.1 q.2) = true
    · rw [if_pos hany] at he
      obtain ⟨ep, hep, hee⟩ := List.mem_map.mp he
      by_cases hc : ep.1 = stageRowKey q.1 q.2
      · rw [if_pos (by simpa using hc)] at hee
        rw [← hee]
        exact hq
      · rw [if_neg (by simpa using hc)] at hee
        rw [← hee]
        exact hacc ep hep
    · rw [if_neg hany] at he
      rcases List.mem_append.mp he with h1 | h2
      · exact hacc e h1
      · simp only [List.mem_singleton] at h2
        rw [h2]
        exact hq

theorem runStage_foldl_lookup (f : Nat → Row → Except String Row) :
    ∀ (jobs : List (Nat × Row)) (acc : List (Int × Row)) (p : Nat × Row), p ∈ jobs →
      ((jobs.map (fun q => stageRowKey q.1 q.2)).Nodup) →
      (∀ e ∈ acc, e.1 ∉ jobs.map (fun q => stageRowKey q.1 q.2)) →
      dGet (jobs.foldl (runStageStep f) acc) (stageRowKey p.1 p.2) =
        (match f p.1 p.2 with | .ok v => some v | .error _ => none) := by
  intro jobs
  induction jobs with
  | nil => intro acc p hp; cases hp
  | cons q rest ih =>
    intro acc p hp hnd hacc
    simp only [List.map_cons, List.nodup_cons] at hnd
    simp only [List.foldl_cons]
    rcases List.mem_cons.mp hp with rfl | hp
    · rw [dGet_foldl_runStageStep f rest (runStageStep f acc p) _ ?_]
      · unfold runStageStep
        cases hf : f p.1 p.2 with
        | ok v =>
          exact dGet_dSet_self acc _ v
            (fun e he hc => hacc e he (by simp [hc]))
        | error e =>
          exact dGet_eq_none acc _ (fun ep hep hc => hacc ep hep (by simp [hc]))
      · intro pr hpr heq
        exact hnd.1 (heq ▸ List.mem_map_of_mem (fun q => stageRowKey q.1 q.2) hpr)
    · apply ih (runStageStep f acc q) p hp hnd.2
      intro e he
      exact runStageStep_keys f acc q
        (fun x => x ∉ rest.map (fun q => stageRowKey q.1 q.2))
        (fun ep hep hc => hacc ep hep (by simp [hc])) hnd.1 e he

/-- C7: with pairwise-distinct addressing keys, when the stage function
fails for row `i` that row's key is absent from the update map (so the
merge passes the original row through), every other row's computed result
is present exactly as it would be without the failure, and the run
completes over the remaining rows. -/
theorem stage_failure_isolation (rows : List Row)
    (f g : Nat → Row → Except String Row) (i : Nat) (hi : i < rows.length)
    (hkeys : ((rows.enum).map (fun q => stageRowKey q.1 q.2)).Nodup)
    (hfail : ∃ msg, f i (rows.get ⟨i, hi⟩) = .error msg)
    (hg : ∀ j r, j ≠ i → g j r = f j r) :
    dGet (runStage rows f) (stageRowKey i (rows.get ⟨i, hi⟩)) = none ∧
    (∀ j (hj : j < rows.length) v, f j (rows.get ⟨j, hj⟩) = .ok v →
      dGet (runStage rows f) (stageRowKey j (rows.get ⟨j, hj⟩)) = some v) ∧
    (∀ j (hj : j < rows.length), j ≠ i →
      dGet (runStage rows f) (stageRowKey j (rows.get ⟨j, hj⟩)) =
        dGet (runStage rows g) (stageRowKey j (rows.get ⟨j, hj⟩))) := by
  have hmem : ∀ j (hj : j < rows.length), ((j, rows.get ⟨j, hj⟩) : Nat × Row) ∈ rows.enum := by
    intro j hj
    have hje : rows.enum[j]? = some (j, rows.get ⟨j, hj⟩) := by
      rw [List.enum_eq_enumFrom, List.getElem?_enumFrom]
      simp [List.getElem?_eq_getElem hj, List.get_eq_getElem]
    exact List.getElem?_mem hje
  have hlookup : ∀ (h : Nat → Row → Except String Row) j (hj : j < rows.length),
      dGet (runStage rows h) (stageRowKey j (rows.get ⟨j, hj⟩)) =
        (match h j (rows.get ⟨j, hj⟩) with | .ok v => some v | .error _ => none) := by
    intro h j hj
    exact runStage_foldl_lookup h rows.enum [] (j, rows.get ⟨j, hj⟩) (hmem j hj) hkeys
      (by intro e he; cases he)
  refine ⟨?_, ?_, ?_⟩
  · obtain ⟨msg, hmsg⟩ := hfail
    rw [hlookup f i hi, hmsg]
  · intro j hj v hv
    rw [hlookup f j hj, hv]
  · intro j hj hne
    rw [hlookup f j hj, hlookup g j hj, hg j (rows.get ⟨j, hj⟩) hne]

/-- Witness for C7: a two-row batch whose first row fails. -/
theorem stage_failure_isolation_witness :
    dGet (runStage [[("__row", PyVal.vint 1)], [("__row", PyVal.vint 2)]]
      (fun idx row => if idx = 0 then .error "boom" else .ok (rowSet row "done" (.vstr "y"))))
      1 = none ∧
    dGet (runStage [[("__row", PyVal.vint 1)], [("__row", PyVal.vint 2)]]
      (fun idx row => if idx = 0 then .error "boom" else .ok (rowSet row "done" (.vstr "y"))))
      2 = some (rowSet [("__row", PyVal.vint 2)] "done" (.vstr "y")) := by
  obtain ⟨h1, h2, _⟩ := stage_failure_isolation
    [[("__row", PyVal.vint 1)], [("__row", PyVal.vint 2)]]
    (fun idx row => if idx = 0 then .error "boom" else .ok (rowSet row "done" (.vstr "y")))
    (fun idx row => if idx = 0 then .error "boom" else .ok (rowSet row "done" (.vstr "y")))
    0 (by decide) (by decide) ⟨"boom", rfl⟩ (fun _ _ _ => rfl)
  exact ⟨h1, h2 1 (by decide) _ rfl⟩

/-! ## C8: business-model / market-focus normalization -/

/-- C8 counterexample: in the `iso_msp` branch the raw `business_model` is
only case-folded, never validated against the enum — `"Consulting"`
normalizes to `"consulting"`, which is neither in the enum nor `"other"`,
refuting the claim for that profile. -/
theorem iso_normalization_counterexample :
    (parseLLMFromData "iso_msp" [("business_model", Json.jstr "Consulting")]).map
        (fun r => r.business_model) = .ok "consulting" ∧
    "consulting" ∉ allowedModels ∧ "consulting" ≠ "other" :=
  ⟨rfl, by decide, by decide⟩

/-- C8 (amended): for the `enterprise` and default parsing branches (every
profile except `iso_msp`), the normalized `business_model` is the
case-folded raw value when that lies in the fixed enum and `"other"`
otherwise, and the normalized `market_focus` is the upper-cased raw value
when that lies in its enum and `"OTHER"` otherwise; both results always
lie in their enums. -/
theorem enum_normalization_amended (profile : String) (data : List (String × Json))
    (r : LLMEnrichment) (hprof : profile ≠ "iso_msp")
    (hr : parseLLMFromData profile data = .ok r) :
    r.business_model ∈ allowedModels ∧ r.market_focus ∈ allowedMarkets ∧
    r.business_model =
      (if pyLower (jsonPyStr (jOr (jGet data "business_model") (.jstr "other"))) ∈ allowedModels
       then pyLower (jsonPyStr (jOr (jGet data "business_model") (.jstr "other")))
       else "other") ∧
    r.market_focus =
      (if pyUpper (jsonPyStr (jOr (jGet data "market_focus") (.jstr "Other"))) ∈ allowedMarkets
       then pyUpper (jsonPyStr (jOr (jGet data "market_focus") (.jstr "Other")))
       else "OTHER") := by
  unfold parseLLMFromData at hr
  rw [if_neg hprof] at hr
  by_cases h2 : profile = "enterprise"
  · rw [if_pos h2] at hr
    unfold parseLLMEnterprise at hr
    cases hs : asStrList (listify (jOr (jGet data "software_products") (.jarr []))) with
    | error e =>
      simp only [hs, bind, Except.bind] at hr
      exact Except.noConfusion hr
    | ok strs =>
      simp only [hs, bind, Except.bind, pure, Except.pure, Except.ok.injEq] at hr
      subst hr
      refine ⟨?_, ?_, ?_, ?_⟩ <;> dsimp only <;>
        simp only [contains_eq_decide_mem, decide_eq_true_eq] <;> split <;>
        first
        | decide
        | simp_all
  · rw [if_neg h2] at hr
    unfold parseLLMDefault at hr
    cases hs : asStrList (listify (jOr (jGet data "software_products")
        (jOr (jGet data "product_names") (.jarr [])))) with
    | error e =>
      simp only [hs, bind, Except.bind] at hr
      exact Except.noConfusion hr
    | ok strs =>
      simp only [hs, bind, Except.bind, pure, Except.pure, Except.ok.injEq] at hr
      subst hr
      refine ⟨?_, ?_, ?_, ?_⟩ <;> dsimp only <;>
        simp only [contains_eq_decide_mem, decide_eq_true_eq] <;> split <;>
        first
        | decide
        | simp_all

/-- Witness for C8 (amended) at a concrete default-branch payload. -/
theorem enum_normalization_amended_witness :
    (parseLLMFromData "software" [("business_model", Json.jstr "Platform"),
        ("market_focus", Json.jstr "b2b")]).map (fun r => r.business_model) = .ok "platform" ∧
    "platform" ∈ allowedModels :=
  ⟨rfl, (enum_normalization_amended "software"
    [("business_model", Json.jstr "Platform"), ("market_focus", Json.jstr "b2b")]
    { summary := "Summary unavailable.", insights := "No insights returned.",
      business_model := "platform", market_focus := "B2B",
      raw_response := some [("business_model", Json.jstr "Platform"),
        ("market_focus", Json.jstr "b2b")] } (by decide) rfl).1⟩

/-! ## C5: code-fence stripping (`_parse_dossier_json` vs `_parse_llm_json`) -/

theorem strDataExt {s t : String} (h : s.data = t.data) : s = t := by
  cases s
  cases t
  exact congrArg String.mk h

theorem str_data_mk (l : List Char) : (String.mk l).data = l := rfl

theorem mem_of_head_eq {α : Type} {l : List α} {a : α} (h : l.head? = some a) : a ∈ l := by
  cases l with
  | nil => exact Option.noConfusion h
  | cons b bs =>
    rw [List.head?_cons, Option.some.injEq] at h
    rw [← h]
    exact List.mem_cons_self b bs

theorem dropWhile_str_eq_self (p : String → Bool) (l : List String)
    (h : ∀ x, l.head? = some x → p x = false) : l.dropWhile p = l := by
  cases l with
  | nil => rfl
  | cons a rest =>
    have ha := h a rfl
    simp [List.dropWhile_cons, ha]

theorem stripChars_eq_self (cs : List Char)
    (hh : ∀ c, cs.head? = some c → c.isWhitespace = false)
    (hl : ∀ c, cs.getLast? = some c → c.isWhitespace = false) :
    stripChars cs = cs := by
  have h2 : cs.reverse.dropWhile Char.isWhitespace = cs.reverse :=
    dropWhile_eq_self_of_head _ _ (fun c hc => hl c (by rwa [List.head?_reverse] at hc))
  unfold stripChars
  rw [dropWhile_eq_self_of_head _ _ hh, h2, List.reverse_reverse]

theorem strip_invariant_last {s : String} (h : pyStrip s = s) :
    ∀ c, s.data.getLast? = some c → c.isWhitespace = false := by
  intro c hc
  have hd : stripChars s.data = s.data := congrArg String.data h
  rw [← hd] at hc
  unfold stripChars at hc
  rw [List.getLast?_reverse] at hc
  exact dropWhile_head?_not _ _ _ hc

theorem dropTrailingFences_append (L : List String) (x : String)
    (hx : strStartsWith x "```" = true)
    (hL : ∀ l ∈ L, strStartsWith l "```" = false) :
    dropTrailingFences (L ++ [x]) = L := by
  have hself : L.reverse.dropWhile (fun p => strStartsWith p "```") = L.reverse :=
    dropWhile_str_eq_self _ _
      (fun y hy => hL y (List.mem_reverse.mp (mem_of_head_eq hy)))
  unfold dropTrailingFences
  rw [List.reverse_append, List.reverse_singleton, List.singleton_append]
  simp only [List.dropWhile_cons]
  rw [if_pos hx, hself, List.reverse_reverse]

theorem splitlinesAux_ne_nil : ∀ (cs acc : List Char), cs ≠ [] →
    splitlinesAux acc cs ≠ [] := by
  intro cs
  induction cs with
  | nil => intro acc h; exact absurd rfl h
  | cons c cs2 ih =>
    intro acc _
    simp only [splitlinesAux]
    by_cases hc : c = '\n'
    · rw [if_pos hc]; simp
    · by_cases hcr : c = '\r'
      · rw [if_neg hc, if_pos hcr]; simp
      · rw [if_neg hc, if_neg hcr]
        by_cases h2 : cs2 = []
        · subst h2; simp [splitlinesAux]
        · exact ih (c :: acc) h2

theorem splitlinesAux_append_nl : ∀ (cs acc rest : List Char), '\r' ∉ cs →
    (acc ≠ [] ∨ cs ≠ []) → cs.getLast? ≠ some '\n' →
    splitlinesAux acc (cs ++ '\n' :: rest) =
      splitlinesAux acc cs ++ splitlinesAux [] rest := by
  intro cs
  induction cs with
  | nil =>
    intro acc rest _ hne _
    rcases hne with h | h
    · have hai : acc.isEmpty = false := by
        cases acc with
        | nil => exact absurd rfl h
        | cons a as => rfl
      rw [List.nil_append]
      simp only [splitlinesAux]
      rw [if_pos trivial, if_neg (by simp [hai]), List.singleton_append]
    · exact absurd rfl h
  | cons c cs2 ih =>
    intro acc rest hr hne hlast
    rw [List.cons_append]
    simp only [splitlinesAux]
    by_cases hc : c = '\n'
    · subst hc
      have hcs2 : cs2 ≠ [] := by
        intro h0
        subst h0
        exact hlast (by simp)
      have hlast2 : cs2.getLast? ≠ some '\n' := by
        cases cs2 with
        | nil => exact absurd rfl hcs2
        | cons d ds =>
          intro hx
          exact hlast (by rw [List.getLast?_cons_cons]; exact hx)
      rw [if_pos rfl, if_pos rfl]
      rw [ih [] rest (fun hm => hr (List.mem_cons_of_mem _ hm)) (Or.inr hcs2) hlast2]
      rw [List.cons_append]
    · by_cases hcr : c = '\r'
      · exact absurd (by rw [hcr]; exact List.mem_cons_self _ _) hr
      · have hl2 : cs2.getLast? ≠ some '\n' := by
          cases cs2 with
          | nil => simp
          | cons d ds =>
            intro hx
            exact hlast (by rw [List.getLast?_cons_cons]; exact hx)
        rw [if_neg hc, if_neg hcr, if_neg hc, if_neg hcr]
        exact ih (c :: acc) rest (fun hm => hr (List.mem_cons_of_mem _ hm))
          (Or.inl (by simp)) hl2

theorem joinNL_cons (x : String) (L : List String) (h : L ≠ []) :
    joinNL (x :: L) = x ++ "\n" ++ joinNL L := by
  cases L with
  | nil => exact absurd rfl h
  | cons y t => rfl

theorem joinNL_splitlinesAux : ∀ (cs acc : List Char), '\r' ∉ cs →
    cs.getLast? ≠ some '\n' → (acc ≠ [] ∨ cs ≠ []) →
    joinNL (splitlinesAux acc cs) = String.mk (acc.reverse ++ cs) := by
  intro cs
  induction cs with
  | nil =>
    intro acc _ _ hne
    rcases hne with h | h
    · have hai : acc.isEmpty = false := by
        cases acc with
        | nil => exact absurd rfl h
        | cons a as => rfl
      simp only [splitlinesAux]
      rw [if_neg (by simp [hai])]
      show joinNL [String.mk acc.reverse] = String.mk (acc.reverse ++ [])
      rw [List.append_nil]
      rfl
    · exact absurd rfl h
  | cons c cs2 ih =>
    intro acc hr hlast _
    simp only [splitlinesAux]
    by_cases hc : c = '\n'
    · subst hc
      have hcs2 : cs2 ≠ [] := by
        intro h0
        subst h0
        exact hlast (by simp)
      have hlast2 : cs2.getLast? ≠ some '\n' := by
        cases cs2 with
        | nil => exact absurd rfl hcs2
        | cons d ds =>
          intro hx
          exact hlast (by rw [List.getLast?_cons_cons]; exact hx)
      rw [if_pos rfl]
      rw [joinNL_cons _ _ (splitlinesAux_ne_nil cs2 [] hcs2)]
      rw [ih [] (fun hm => hr (List.mem_cons_of_mem _ hm)) hlast2 (Or.inr hcs2)]
      apply strDataExt
      simp [String.data_append, str_data_mk, show ("\n" : String).data = ['\n'] from rfl]
    · by_cases hcr : c = '\r'
      · exact absurd (by rw [hcr]; exact List.mem_cons_self _ _) hr
      · have hl2 : cs2.getLast? ≠ some '\n' := by
          cases cs2 with
          | nil => simp
          | cons d ds =>
            intro hx
            exact hlast (by rw [List.getLast?_cons_cons]; exact hx)
        rw [if_neg hc, if_neg hcr]
        rw [ih (c :: acc) (fun hm => hr (List.mem_cons_of_mem _ hm)) hl2 (Or.inl (by simp))]
        apply strDataExt
        simp [str_data_mk]

theorem stripCodeFence_id (body : String)
    (h1 : pyStrip body = body) (h3 : strStartsWith body "```" = false) :
    stripCodeFence body = body := by
  simp only [stripCodeFence, h1, h3]
  rw [if_neg (by simp)]

theorem fence_wrap_data (body : String) : ("```json\n" ++ body ++ "\n```").data =
    "```json".data ++ '\n' :: (body.data ++ '\n' :: "```".data) := by
  rw [String.data_append, String.data_append, List.append_assoc]
  rfl

theorem stripCodeFence_wrap (body : String) (h0 : body ≠ "")
    (h1 : pyStrip body = body) (h2 : '\r' ∉ body.data)
    (h4 : ∀ l ∈ pySplitlines body, strStartsWith l "```" = false) :
    stripCodeFence ("```json\n" ++ body ++ "\n```") = body := by
  have hbody_ne : body.data ≠ [] := by
    intro hx
    exact h0 ((str_eq_empty_iff body).mpr hx)
  have hblast : body.data.getLast? ≠ some '\n' := by
    intro hx
    exact absurd (strip_invariant_last h1 '\n' hx) (by decide)
  have hstrip : pyStrip ("```json\n" ++ body ++ "\n```") =
      "```json\n" ++ body ++ "\n```" := by
    unfold pyStrip
    rw [stripChars_eq_self]
    · intro c hc
      rw [fence_wrap_data] at hc
      rw [show ("```json".data ++ '\n' :: (body.data ++ '\n' :: "```".data)).head? =
        some '`' from rfl] at hc
      injection hc with hcc
      rw [← hcc]
      decide
    · intro c hc
      rw [String.data_append, List.getLast?_append] at hc
      rw [show (("\n```" : String).data.getLast?).or
        (("```json\n" ++ body).data.getLast?) = some '`' from rfl] at hc
      injection hc with hcc
      rw [← hcc]
      decide
  have hstarts : strStartsWith ("```json\n" ++ body ++ "\n```") "```" = true := by
    unfold strStartsWith
    rw [fence_wrap_data]
    rfl
  have hlines : pySplitlines ("```json\n" ++ body ++ "\n```") =
      "```json" :: (pySplitlines body ++ ["```"]) := by
    unfold pySplitlines
    rw [fence_wrap_data]
    rw [splitlinesAux_append_nl "```json".data [] (body.data ++ '\n' :: "```".data)
      (by decide) (Or.inr (by decide)) (by decide)]
    rw [splitlinesAux_append_nl body.data [] ("```".data) h2 (Or.inr hbody_ne) hblast]
    rw [show splitlinesAux [] "```json".data = ["```json"] from by simp [splitlinesAux]]
    rw [show splitlinesAux [] "```".data = ["```"] from by simp [splitlinesAux]]
    rw [List.singleton_append]
  have e4 : dropTrailingFences (pySplitlines body ++ ["```"]) = pySplitlines body :=
    dropTrailingFences_append _ _ (by decide) h4
  have e5 : joinNL (pySplitlines body) = body :=
    (joinNL_splitlinesAux body.data [] h2 hblast (Or.inr hbody_ne)).trans
      (str_mk_data body)
  simp only [stripCodeFence]
  rw [hstrip, if_pos hstarts, hlines]
  dsimp only
  rw [if_pos (show strStartsWith "```json" "```" = true from rfl)]
  rw [e4, e5, h1, if_pos h0]

theorem parseDossier_fence (body : String) (h0 : body ≠ "")
    (h1 : pyStrip body = body) (h2 : '\r' ∉ body.data)
    (h3 : strStartsWith body "```" = false)
    (h4 : ∀ l ∈ pySplitlines body, strStartsWith l "```" = false) :
    parseDossierJson ("```json\n" ++ body ++ "\n```") = parseDossierJson body := by
  simp only [parseDossierJson]
  rw [stripCodeFence_wrap body h0 h1 h2 h4, stripCodeFence_id body h1 h3]

theorem dossier_scenario_lines :
    pySplitlines "\x7b\"summary\":\"ok\",\"wins\":[\"a\"]\x7d" =
      ["\x7b\"summary\":\"ok\",\"wins\":[\"a\"]\x7d"] := by
  simp [pySplitlines, splitlinesAux]

/-- C5 (counterexample): the decision cascade's strict parser
(`_parse_llm_json`) does not strip a markdown code fence: the fenced body
`\x7b"summary":"ok","wins":["a"]\x7d` is rejected as invalid JSON under
strict mode, while the unfenced body parses successfully — the fenced
response does not parse to the same result as the unfenced JSON. -/
theorem llm_fence_counterexample :
    parseLLMJson "software" "```json\n\x7b\"summary\":\"ok\",\"wins\":[\"a\"]\x7d\n```" true =
      .error "ValueError: LLM response is not valid JSON" ∧
    (parseLLMJson "software" "\x7b\"summary\":\"ok\",\"wins\":[\"a\"]\x7d" true).isOk = true :=
  ⟨rfl, rfl⟩

/-- C5 (amended): only the dossier parser tolerates a markdown code fence.
`_parse_dossier_json` strips the fence lines before JSON-decoding, so for
every stripped, fence-free, CR-free nonempty body the fenced response
parses to the same result as the unfenced body, and the concrete fenced
dossier payload yields summary `"ok"` and wins `["a"]`; `_parse_llm_json`
performs no such stripping and rejects the same fenced payload under
strict mode. -/
theorem dossier_fence_amended :
    (∀ body : String, body ≠ "" → pyStrip body = body → '\r' ∉ body.data →
      strStartsWith body "```" = false →
      (∀ l ∈ pySplitlines body, strStartsWith l "```" = false) →
      parseDossierJson ("```json\n" ++ body ++ "\n```") = parseDossierJson body) ∧
    parseDossierJson "```json\n\x7b\"summary\":\"ok\",\"wins\":[\"a\"]\x7d\n```" =
      .ok { summary := "ok", wins := ["a"], setbacks := [], workforce_changes := [],
            regulatory := [], notable_quotes := [], sources := [] } ∧
    parseLLMJson "software" "```json\n\x7b\"summary\":\"ok\",\"wins\":[\"a\"]\x7d\n```" true =
      .error "ValueError: LLM response is not valid JSON" := by
  refine ⟨fun body h0 h1 h2 h3 h4 => parseDossier_fence body h0 h1 h2 h3 h4, ?_, rfl⟩
  have h4c : ∀ l ∈ pySplitlines "\x7b\"summary\":\"ok\",\"wins\":[\"a\"]\x7d",
      strStartsWith l "```" = false := by
    intro l hl
    rw [dossier_scenario_lines] at hl
    rw [List.mem_singleton] at hl
    subst hl
    decide
  have hb : parseDossierJson "```json\n\x7b\"summary\":\"ok\",\"wins\":[\"a\"]\x7d\n```" =
      parseDossierJson "\x7b\"summary\":\"ok\",\"wins\":[\"a\"]\x7d" :=
    parseDossier_fence "\x7b\"summary\":\"ok\",\"wins\":[\"a\"]\x7d" (by decide) (by decide)
      (by decide) (by decide) h4c
  rw [hb]
  rfl

/-- Witness for C5 (amended): the universal fence-stripping equation of the
dossier parser applied at the concrete body `\x7b"a":1\x7d`. -/
theorem dossier_fence_amended_witness :
    parseDossierJson ("```json\n" ++ "\x7b\"a\":1\x7d" ++ "\n```") =
      parseDossierJson "\x7b\"a\":1\x7d" :=
  dossier_fence_amended.1 "\x7b\"a\":1\x7d" (by decide) (by decide) (by decide) (by decide)
    (by
      intro l hl
      rw [show pySplitlines "\x7b\"a\":1\x7d" = ["\x7b\"a\":1\x7d"] from by
        simp [pySplitlines, splitlinesAux]] at hl
      rw [List.mem_singleton] at hl
      subst hl
      decide)

end Scraper
